import Mathlib

/-!
The CSV import pipeline of pgfutter.

A shallow embedding of `csv.go` and `postgres.go`.

Go strings are modelled by Lean `String`s (sequences of Unicode code points, that is,
valid UTF-8 text).  Go `int` counters are modelled by `Nat`: the row counters of the
copy loop are bounded by the number of records read and stay far below `2^63`.
-/

namespace Pgfutter

/-! ## Library functions used by the source -/

/-- Go `strings.Contains(s, substr)`: `substr` occurs in `s` as a contiguous block. -/
def stringsContains (s substr : String) : Bool :=
  decide (substr.data <:+: s.data)

/-- Go `strings.Split(s, sep)` for a one-character separator: the pieces of `s`
between the occurrences of `sep` (always at least one piece). -/
def stringsSplit (s : String) (sep : Char) : List String :=
  (s.data.splitOn sep).map String.mk

/-- Go `strings.Join(elems, sep)`. -/
def stringsJoin (elems : List String) (sep : String) : String :=
  sep.intercalate elems

/-- Go `unicode.ToLower`: ASCII is handled by arithmetic, every other rune goes
through the Unicode case table `tbl` (`unicode.To(LowerCase, r)`), which is a
parameter of the development. -/
def unicodeToLower (tbl : Char → Char) (r : Char) : Char :=
  if r.toNat ≤ 127 then
    if 'A'.toNat ≤ r.toNat ∧ r.toNat ≤ 'Z'.toNat then Char.ofNat (r.toNat + 32) else r
  else tbl r

/-- Go `strings.ToLower` on valid UTF-8: every rune is mapped by `unicode.ToLower`. -/
def stringsToLower (tbl : Char → Char) (s : String) : String :=
  ⟨s.data.map (unicodeToLower tbl)⟩

/-- Go `unicode.IsSpace`: the Unicode `White_Space` property. -/
def unicodeIsSpace (r : Char) : Bool :=
  let n := r.toNat
  (9 ≤ n && n ≤ 13) || n == 0x20 || n == 0x85 || n == 0xA0 || n == 0x1680 ||
  (0x2000 ≤ n && n ≤ 0x200a) || n == 0x2028 || n == 0x2029 || n == 0x202f ||
  n == 0x205f || n == 0x3000

/-- Go `strings.TrimSpace`: leading and trailing white space removed. -/
def stringsTrimSpace (s : String) : String :=
  ⟨((s.data.dropWhile unicodeIsSpace).reverse.dropWhile unicodeIsSpace).reverse⟩

/-- Go `strings.Replace(s, old, new, -1)` for a one-character `old`: every
occurrence of `old` is replaced by `new`. -/
def stringsReplace (s : String) (old : Char) (new : String) : String :=
  ⟨s.data.flatMap (fun c => if c = old then new.data else [c])⟩

/-! ## postgres.go -/

/-- The `replacements` map literal of `postgresify` (postgres.go:45-68), in the
order of the source text.  Every key is a one-character string. -/
def replacements : List (Char × String) :=
  [(' ', "_"), ('/', "_"), ('.', "_"), (':', "_"), (';', "_"), ('|', "_"),
   ('-', "_"), (',', "_"), ('#', "_"),
   ('[', ""), (']', ""), ('{', ""), ('}', ""), ('(', ""), (')', ""),
   ('?', ""), ('!', ""), ('$', ""), ('%', ""), ('*', ""), ('"', "")]

/-- What one call of `postgresify` takes from its environment: the order in which
`range replacements` visits the map (Go leaves it unspecified) and the value that
`rand.Intn(10000)` returns. -/
structure Env where
  rangeOrder : List (Char × String)
  randIntn : Nat

/-- The environments a Go run can supply: `range` visits every entry of the map
exactly once, and `rand.Intn(10000)` is below `10000`. -/
def Env.Valid (e : Env) : Prop :=
  e.rangeOrder.Perm replacements ∧ e.randIntn < 10000

/-- The environment that visits the map in source order and draws `0`. -/
def Env.default : Env := ⟨replacements, 0⟩

/-- The loop `for oldString, newString := range replacements` (postgres.go:69-71). -/
def applyReplacements : List (Char × String) → String → String
  | [], str => str
  | (oldString, newString) :: rest, str =>
      applyReplacements rest (stringsReplace str oldString newString)

/-- The function `postgresify` (postgres.go:40-83).  The result of
`sanitize.BaseName` on line 41 is overwritten on line 42 before it is read.
`strconv.Atoi` of the one-character string `string(str[0])` succeeds exactly when
the first byte is a decimal digit. -/
def postgresify (tbl : Char → Char) (e : Env) (identifier : String) : String :=
  let str := stringsToLower tbl identifier
  let str := stringsTrimSpace str
  let str := applyReplacements e.rangeOrder str
  match str.data with
  | [] => "_col" ++ toString e.randIntn
  | firstLetter :: _ =>
      if firstLetter.isDigit then "_" ++ str else str

/-! ## The delimited-text decoder and the sink

`encoding/csv` and the import session of `import.go` are not part of the two
source files.  The decoder is modelled by what it tokenises from the byte stream;
the operations of the session are parameters. -/

/-- Go `error` values that occur in `csv.go`. -/
inductive GoError where
  /-- The value `io.EOF`. -/
  | EOF
  /-- A syntax error reported by the decoder. -/
  | parse (msg : String)
  /-- The value `csv.ErrFieldCount`. -/
  | fieldCount
  /-- An error returned by an operation of the import session. -/
  | sink (msg : String)
  /-- The error built on csv.go:39. -/
  | delimiter (col : String)
  /-- The error built on csv.go:70 and csv.go:91, `"%s: %s"` of cause and line. -/
  | row (cause : GoError) (line : String)
  /-- The error built on csv.go:159. -/
  | parseColumnsFailed (cause : GoError)
  /-- The error built on csv.go:166. -/
  | prepareFailed (cause : GoError)
  /-- The error built on csv.go:177. -/
  | copyFailed (lineNumber : Nat) (cause : GoError)
  deriving DecidableEq, Repr

/-- The method `Error()`: the text of each error.  For `csv.ErrFieldCount` the
position prefix `record on line N: ` that the decoder puts in front is left out. -/
def GoError.Error : GoError → String
  | .EOF => "EOF"
  | .parse msg => msg
  | .fieldCount => "wrong number of fields"
  | .sink msg => msg
  | .delimiter col =>
      "Please specify the correct delimiter with -d.\nHeader column contains a delimiter character: " ++ col
  | .row cause line => cause.Error ++ ": " ++ line
  | .parseColumnsFailed cause => "Couldn't parse columns: " ++ cause.Error
  | .prepareFailed cause => "Couldn't prepare CSV import: " ++ cause.Error
  | .copyFailed lineNumber cause =>
      "Error copying from CSV to table at line " ++ toString lineNumber ++ ".  Error: " ++ cause.Error

/-- What the decoder tokenises for one upcoming record of the source: a record of
fields, or a syntax error together with the fields it returns alongside. -/
inductive Raw where
  | record (fields : List String)
  | malformed (fields : List String) (msg : String)
  deriving DecidableEq, Repr

/-- The fields returned for a tokenised record. -/
def Raw.fields : Raw → List String
  | .record fields => fields
  | .malformed fields _ => fields

/-- The syntax error of a tokenised record, if any. -/
def Raw.err : Raw → Option GoError
  | .record _ => none
  | .malformed _ msg => some (.parse msg)

/-- A `*csv.Reader`: the records still to be read, and the field `FieldsPerRecord`. -/
structure Reader where
  pending : List Raw
  FieldsPerRecord : Int
  deriving DecidableEq, Repr

/-- The method `(*csv.Reader).Read` of a reader whose `Comma` is a valid delimiter
(for any other `Comma` see `readWithComma`).  At the end of the input it returns
`io.EOF`.  Otherwise it takes the next record; a positive `FieldsPerRecord` turns a record of
another length into `ErrFieldCount` (the record is still returned), and a zero
`FieldsPerRecord` is set to the length of the record just read. -/
def Reader.Read (r : Reader) : (List String × Option GoError) × Reader :=
  match r.pending with
  | [] => (([], some .EOF), r)
  | x :: rest =>
      if 0 < r.FieldsPerRecord then
        if (x.fields.length : Int) ≠ r.FieldsPerRecord ∧ x.err = none then
          ((x.fields, some .fieldCount), ⟨rest, r.FieldsPerRecord⟩)
        else ((x.fields, x.err), ⟨rest, r.FieldsPerRecord⟩)
      else if r.FieldsPerRecord = 0 then
        ((x.fields, x.err), ⟨rest, x.fields.length⟩)
      else ((x.fields, x.err), ⟨rest, r.FieldsPerRecord⟩)

/-- A Go `interface{}` value in a row: `nil` or a string. -/
abbrev Val := Option String

/-- The operations of the import session (`import.go`, not in the source files),
as state transformers on the state `σ` of the sink.  Each returns the new state
and its `error` result. -/
structure Sink (σ : Type) where
  NewCSVImport : σ → String → String → List String → σ × Option GoError
  AddRow : σ → List Val → σ × Option GoError
  Commit : σ → σ × Option GoError

/-- The state a run acts on: the sink, the two output streams, and a record of the
calls made on the session (each `AddRow` call with its arguments and result, and
the number of `Commit` calls). -/
structure World (σ : Type) where
  db : σ
  addRowCalls : List (List Val × Option GoError) := []
  commits : Nat := 0
  stderr : List String := []
  stdout : List String := []

/-- How a run of a function ends: it returns, it panics with an index out of
range, or the model runs out of fuel. -/
inductive Exec (α : Type) where
  | returned (a : α)
  | indexOutOfRange
  | outOfFuel

/-! ## csv.go -/

/-- The function `containsDelimiter` (csv.go:14-18). -/
def containsDelimiter (col : String) : Bool :=
  stringsContains col ";" || stringsContains col "," ||
  stringsContains col "|" || stringsContains col "\t" ||
  stringsContains col "^" || stringsContains col "~"

/-- The first loop of `parseColumns` (csv.go:37-41): the first column that
contains a delimiter character, if there is one. -/
def firstDelimiterColumn : List String → Option String
  | [] => none
  | col :: rest => if containsDelimiter col then some col else firstDelimiterColumn rest

/-- The second loop of `parseColumns` (csv.go:43-45), from index `i` on: the call
for `columns[i]` runs in the environment `env i`. -/
def postgresifyFrom (tbl : Char → Char) (env : Nat → Env) : Nat → List String → List String
  | _, [] => []
  | i, col :: rest => postgresify tbl (env i) col :: postgresifyFrom tbl env (i + 1) rest

/-- The function `parseColumns` (csv.go:21-48).  It returns the columns, the error
and the reader as it leaves it. -/
def parseColumns (tbl : Char → Char) (env : Nat → Env) (reader : Reader)
    (skipHeader : Bool) (fields : String) : (List String × Option GoError) × Reader :=
  let checkAndSanitize (columns : List String) (reader : Reader) :
      (List String × Option GoError) × Reader :=
    match firstDelimiterColumn columns with
    | some col => ((columns, some (.delimiter col)), reader)
    | none => ((postgresifyFrom tbl env 0 columns, none), reader)
  if fields ≠ "" then
    let columns := stringsSplit fields ','
    if skipHeader then
      checkAndSanitize columns reader.Read.2
    else
      checkAndSanitize columns reader
  else
    match reader.Read with
    | ((_, some err), reader) => (([], some err), reader)
    | ((columns, none), reader) => checkAndSanitize columns reader

/-- The loop on csv.go:77-79 from index `i` on: `cols[i] = col` for each field of
the record; an index outside `cols` is a run-time panic (`none`). -/
def fillCols : List Val → Nat → List String → Option (List Val)
  | cols, _, [] => some cols
  | cols, i, col :: rest =>
      if i < cols.length then fillCols (cols.set i (some col)) (i + 1) rest else none

/-- The row handed to `AddRow` for a record: `make([]interface{}, len(columns))`
(csv.go:55) filled by the loop on csv.go:77-79. -/
def makeCols (columns : List String) (record : List String) : Option (List Val) :=
  fillCols (List.replicate columns.length none) 0 record

/-- What `copyCSVRows` returns, and the reader and world as it leaves them. -/
structure CopyResult (σ : Type) where
  err : Option GoError
  success : Nat
  failed : Nat
  reader : Reader
  world : World σ

/-- The `for` loop of `copyCSVRows` (csv.go:54-97) with the local variables
`success` and `failed`; `fuel` bounds the number of iterations. -/
def copyLoop {σ : Type} (S : Sink σ) (ignoreErrors : Bool) (delimiter : String)
    (columns : List String) :
    Nat → Reader → World σ → Nat → Nat → Exec (CopyResult σ)
  | 0, _, _, _, _ => .outOfFuel
  | fuel + 1, reader, w, success, failed =>
      match reader.Read with
      | ((record, some err), reader) =>
          if err = .EOF then
            .returned ⟨none, success, failed, reader, w⟩
          else
            let line := stringsJoin record delimiter
            let failed := failed + 1
            if ignoreErrors then
              copyLoop S ignoreErrors delimiter columns fuel reader
                { w with stderr := w.stderr ++ [line] } success failed
            else
              .returned ⟨some (.row err line), success, failed, reader, w⟩
      | ((record, none), reader) =>
          match makeCols columns record with
          | none => .indexOutOfRange
          | some cols =>
              let r := S.AddRow w.db cols
              let w := { w with db := r.1, addRowCalls := w.addRowCalls ++ [(cols, r.2)] }
              match r.2 with
              | some err =>
                  let line := stringsJoin record delimiter
                  let failed := failed + 1
                  if ignoreErrors then
                    copyLoop S ignoreErrors delimiter columns fuel reader
                      { w with stderr := w.stderr ++ [line] } success failed
                  else
                    .returned ⟨some (.row err line), success, failed, reader, w⟩
              | none =>
                  copyLoop S ignoreErrors delimiter columns fuel reader w (success + 1) failed

/-- The function `copyCSVRows` (csv.go:50-100).  Every iteration that does not
leave the loop takes one record off the reader, so one more iteration than there
are pending records is enough. -/
def copyCSVRows {σ : Type} (S : Sink σ) (w : World σ) (reader : Reader)
    (ignoreErrors : Bool) (delimiter : String) (columns : List String) :
    Exec (CopyResult σ) :=
  copyLoop S ignoreErrors delimiter columns (reader.pending.length + 1) reader w 0 0

/-- The function `ImportCSV` (csv.go:142-187).  `input` is what the decoder built
on lines 152-155 (with the delimiter as `Comma` and `LazyQuotes` set) tokenises
from the byte stream; a new reader has `FieldsPerRecord = 0`. -/
def ImportCSV {σ : Type} (S : Sink σ) (tbl : Char → Char) (env : Nat → Env)
    (input : List Raw) (w : World σ) (schema tableName : String)
    (ignoreErrors skipHeader : Bool) (fields delimiter : String) :
    Exec (Option GoError × World σ) :=
  let csvReader : Reader := ⟨input, 0⟩
  match parseColumns tbl env csvReader skipHeader fields with
  | ((_, some err), _) => .returned (some (.parseColumnsFailed err), w)
  | ((columns, none), csvReader) =>
      let csvReader : Reader := { csvReader with FieldsPerRecord := columns.length }
      let r := S.NewCSVImport w.db schema tableName columns
      let w := { w with db := r.1 }
      match r.2 with
      | some err => .returned (some (.prepareFailed err), w)
      | none =>
          match copyCSVRows S w csvReader ignoreErrors delimiter columns with
          | .indexOutOfRange => .indexOutOfRange
          | .outOfFuel => .outOfFuel
          | .returned res =>
              match res.err with
              | some err =>
                  let lineNumber := res.success + res.failed
                  let lineNumber := if !skipHeader then lineNumber + 1 else lineNumber
                  .returned (some (.copyFailed lineNumber err), res.world)
              | none =>
                  let stdout := res.world.stdout ++
                    [toString res.success ++ " rows imported into " ++ schema ++ "." ++ tableName]
                  let stdout := if ignoreErrors && decide (res.failed > 0) then
                    stdout ++
                      [toString res.failed ++ " rows could not be imported into " ++ schema ++ "."
                        ++ tableName ++ " and have been written to stderr."]
                    else stdout
                  let r := S.Commit res.world.db
                  .returned (r.2, { res.world with
                    db := r.1, commits := res.world.commits + 1, stdout := stdout })

/-! ## Notions used to state the properties -/

/-- What successive reads return, up to the end of the input, from a reader with the
pending records `pending` and the field `FieldsPerRecord = fpr`. -/
def readAllFrom : List Raw → Int → List (List String × Option GoError)
  | [], _ => []
  | x :: rest, fpr =>
      (Reader.mk (x :: rest) fpr).Read.1 ::
        readAllFrom rest (Reader.mk (x :: rest) fpr).Read.2.FieldsPerRecord

/-- What successive reads of a reader return, up to the end of the input. -/
def Reader.readAll (r : Reader) : List (List String × Option GoError) :=
  readAllFrom r.pending r.FieldsPerRecord

/-- The records are accepted by `AddRow` one after the other from the state `s`:
for each one the row is built, the call returns no error, and the next record meets
the state the call leaves.  The result is the state after the last call. -/
def acceptAll {σ : Type} (S : Sink σ) (columns : List String) :
    σ → List (List String) → Option σ
  | s, [] => some s
  | s, record :: rest =>
      match makeCols columns record with
      | none => none
      | some cols =>
          match (S.AddRow s cols).2 with
          | none => acceptAll S columns (S.AddRow s cols).1 rest
          | some _ => none

/-- The row of a record that fits the columns: its fields, then `nil` up to the
number of columns. -/
def paddedRow (columns : List String) (record : List String) : List Val :=
  record.map some ++ List.replicate (columns.length - record.length) none

/-- A sink whose state is the list of rows inserted so far; `AddRow` rejects the
rows whose first value is the string `bad`. -/
def listSink : Sink (List (List Val)) where
  NewCSVImport := fun s _ _ _ => (s, none)
  AddRow := fun s cols =>
    if cols.head? = some (some "bad") then (s, some (.sink "rejected")) else (s ++ [cols], none)
  Commit := fun s => (s, none)

/-- A sink whose `NewCSVImport` fails. -/
def refusingSink : Sink (List (List Val)) where
  NewCSVImport := fun s _ _ _ => (s, some (.sink "no such schema"))
  AddRow := fun s cols => (s ++ [cols], none)
  Commit := fun s => (s, none)

/-- A world with an empty table, no call made and nothing written. -/
def emptyWorld : World (List (List Val)) := ⟨[], [], 0, [], []⟩

/-- The source `id,name / 1,Alice / 2 / 2,Bob`: a header and three records, the
second of them one field short. -/
def shortRecordInput : List Raw :=
  [Raw.record ["id", "name"], Raw.record ["1", "Alice"], Raw.record ["2"],
    Raw.record ["2", "Bob"]]

/-! ## postgres.go: connection string and table creation -/

/-- The function `ParseConnStr` (postgres.go:86-100). -/
def ParseConnStr (user dbname password host port : String) (useSsl : Bool) : String :=
  let otherParams := "sslmode=disable connect_timeout=5"
  let otherParams := if useSsl then "sslmode=require connect_timeout=5" else otherParams
  "user=" ++ user ++ " dbname=" ++ dbname ++ " password='" ++ password ++ "' host=" ++ host
    ++ " port=" ++ port ++ " " ++ otherParams

/-- A `*sql.DB` as far as table creation uses it: `Prepare` returns a statement
(or `nil`) and an `error`. -/
structure DB (Stmt : Type) where
  Prepare : String → Option Stmt × Option GoError

/-- The error built on postgres.go:108 and postgres.go:122 from the command and the
error of `Prepare`; `%v` prints a `nil` error as `<nil>`. -/
structure CreateTableError where
  command : String
  cause : Option GoError
  deriving DecidableEq, Repr

/-- The method `Error()` of the error of table creation. -/
def CreateTableError.Error (e : CreateTableError) : String :=
  "Couldn't create table with command: " ++ e.command ++ "  Error: " ++
    (match e.cause with
     | some err => err.Error
     | none => "<nil>")

/-- What table creation returns, and the commands it handed to `Prepare`. -/
structure CreateResult (Stmt : Type) where
  statement : Option Stmt
  err : Option CreateTableError
  prepared : List String

/-- The function `createJSONTable` (postgres.go:103-109). -/
def createJSONTable {Stmt : Type} (db : DB Stmt) (schema tableName column dataType : String) :
    CreateResult Stmt :=
  let fullyQualifiedTable := schema ++ "." ++ tableName
  let tableSchema := "CREATE TABLE IF NOT EXISTS " ++ fullyQualifiedTable ++ " (" ++ column
    ++ " " ++ dataType ++ ")"
  let r := db.Prepare tableSchema
  ⟨r.1, some ⟨tableSchema, r.2⟩, [tableSchema]⟩

/-- The loop on postgres.go:114-116 from index `i` on:
`columnTypes[i] = fmt.Sprintf("%s TEXT", col)`. -/
def fillColumnTypes : List String → Nat → List String → List String
  | columnTypes, _, [] => columnTypes
  | columnTypes, i, col :: rest =>
      fillColumnTypes (columnTypes.set i (col ++ " TEXT")) (i + 1) rest

/-- The function `createTable` (postgres.go:112-126). -/
def createTable {Stmt : Type} (db : DB Stmt) (schema tableName : String)
    (columns : List String) : CreateResult Stmt :=
  let columnTypes := fillColumnTypes (List.replicate columns.length "") 0 columns
  let columnDefinitions := stringsJoin columnTypes ", "
  let fullyQualifiedTable := schema ++ "." ++ tableName
  let tableSchema := "CREATE TABLE IF NOT EXISTS " ++ fullyQualifiedTable ++ " (" ++
    columnDefinitions ++ ")"
  match db.Prepare tableSchema with
  | (_, some err) => ⟨none, some ⟨tableSchema, some err⟩, [tableSchema]⟩
  | (statement, none) => ⟨statement, none, [tableSchema]⟩

/-! ## Further notions used to state the properties -/

/-- The single-pass sanitizer as the specification words it: lower-case and trim,
map every character (each of `space / . : ; | - , #` to an underscore, each of
`[ ] { } ( ) ? ! $ % *` and the double quote to nothing), then `_col` and the number
`n` for an empty result, and an underscore in front of a leading digit. -/
def postgresifyReference (tbl : Char → Char) (n : Nat) (identifier : String) : String :=
  let trimmed := stringsTrimSpace (stringsToLower tbl identifier)
  let mapped : List Char := trimmed.data.flatMap (fun c =>
    if c ∈ " /.:;|-,#".data then ['_']
    else if c ∈ "[]\x7b\x7d()?!$%*\"".data then []
    else [c])
  match mapped with
  | [] => "_col" ++ toString n
  | c :: _ => if c ∈ "0123456789".data then "_" ++ String.mk mapped else String.mk mapped

/-- A character that may start a PostgreSQL identifier: a letter (the letters with
diacritical marks and the non-Latin letters, which lie outside ASCII, included) or an
underscore. -/
def identifierStart (c : Char) : Bool :=
  c.isAlpha || c == '_' || decide (128 ≤ c.toNat)

/-- A character that may follow in a PostgreSQL identifier: a letter, a digit, an
underscore or a dollar sign. -/
def identifierPart (c : Char) : Bool :=
  identifierStart c || c.isDigit || c == '$'

/-- A valid PostgreSQL identifier: a start character followed by part characters. -/
def validIdentifier (s : String) : Bool :=
  match s.data with
  | [] => false
  | c :: rest => identifierStart c && rest.all identifierPart

/-- The lines of the failed records, in input order, given what the reads returned
and the `AddRow` calls made for the records that decoded: a record fails when its
read returned an error or when its `AddRow` call did. -/
def failedLines (delimiter : String) :
    List (List String × Option GoError) → List (List Val × Option GoError) → List String
  | [], _ => []
  | (record, some _) :: rest, calls =>
      stringsJoin record delimiter :: failedLines delimiter rest calls
  | (_, none) :: _, [] => []
  | (record, none) :: rest, (_, some _) :: calls =>
      stringsJoin record delimiter :: failedLines delimiter rest calls
  | (_, none) :: rest, (_, none) :: calls => failedLines delimiter rest calls

/-- A database whose `Prepare` accepts every command; the statement is the command. -/
def acceptingDB : DB String where
  Prepare := fun command => (some command, none)

/-- A database whose `Prepare` refuses every command. -/
def refusingDB : DB String where
  Prepare := fun _ => (none, some (.sink "syntax error"))

/-! ## Readers with any delimiter -/

/-- The value `errInvalidDelim` of `encoding/csv`. -/
def errInvalidDelim : GoError := .parse "csv: invalid field or comment delimiter"

/-- The rune that `utf8.DecodeRuneInString(delimiter)` returns (csv.go:154): the
first rune of the string, and `utf8.RuneError` (`U+FFFD`) for the empty string. -/
def decodeRune (delimiter : String) : Char :=
  match delimiter.data with
  | [] => Char.ofNat 0xFFFD
  | r :: _ => r

/-- The function `validDelim` of `encoding/csv`: neither `NUL`, the double quote, a
carriage return, a line feed nor `utf8.RuneError`. -/
def validDelim (r : Char) : Bool :=
  r != Char.ofNat 0 && r != '"' && r != '\r' && r != '\n' && r != Char.ofNat 0xFFFD

/-- The method `(*csv.Reader).Read` of a reader with the given `Comma` and no
`Comment`: before it reads anything it returns `errInvalidDelim`, with no record,
when `Comma` is not a valid delimiter; otherwise it reads as `Reader.Read` does. -/
def readWithComma (comma : Char) (r : Reader) : (List String × Option GoError) × Reader :=
  if validDelim comma then r.Read else (([], some errInvalidDelim), r)

/-- The `for` loop of `copyCSVRows` (csv.go:54-97) over a reader given by its `Read`
method; `copyLoop` is this loop for `Reader.Read`. -/
def copyLoopWith {σ : Type} (read : Reader → (List String × Option GoError) × Reader)
    (S : Sink σ) (ignoreErrors : Bool) (delimiter : String) (columns : List String) :
    Nat → Reader → World σ → Nat → Nat → Exec (CopyResult σ)
  | 0, _, _, _, _ => .outOfFuel
  | fuel + 1, reader, w, success, failed =>
      match read reader with
      | ((record, some err), reader) =>
          if err = .EOF then
            .returned ⟨none, success, failed, reader, w⟩
          else
            let line := stringsJoin record delimiter
            let failed := failed + 1
            if ignoreErrors then
              copyLoopWith read S ignoreErrors delimiter columns fuel reader
                { w with stderr := w.stderr ++ [line] } success failed
            else
              .returned ⟨some (.row err line), success, failed, reader, w⟩
      | ((record, none), reader) =>
          match makeCols columns record with
          | none => .indexOutOfRange
          | some cols =>
              let r := S.AddRow w.db cols
              let w := { w with db := r.1, addRowCalls := w.addRowCalls ++ [(cols, r.2)] }
              match r.2 with
              | some err =>
                  let line := stringsJoin record delimiter
                  let failed := failed + 1
                  if ignoreErrors then
                    copyLoopWith read S ignoreErrors delimiter columns fuel reader
                      { w with stderr := w.stderr ++ [line] } success failed
                  else
                    .returned ⟨some (.row err line), success, failed, reader, w⟩
              | none =>
                  copyLoopWith read S ignoreErrors delimiter columns fuel reader w
                    (success + 1) failed

/-- A reader set up for two columns whose source holds, after a good record, one
record that is too short and one that is too long. -/
def mixedLengthReader : Reader :=
  ⟨[Raw.record ["1", "Alice"], Raw.record ["2"], Raw.record ["3", "x", "y"]], 2⟩

/-- The reader `ImportCSV` starts with on the source `id,name / 1,Alice / 2,Bob`. -/
def headerReader : Reader :=
  ⟨[Raw.record ["id", "name"], Raw.record ["1", "Alice"], Raw.record ["2", "Bob"]], 0⟩

/-- The same reader once the header record has been read. -/
def headerReaderAfter : Reader :=
  ⟨[Raw.record ["1", "Alice"], Raw.record ["2", "Bob"]], 2⟩

/-! ## Facts about the library functions -/

theorem data_append (a b : String) : (a ++ b).data = a.data ++ b.data := rfl

theorem mem_stringsReplace {s : String} {old : Char} {new : String} {c : Char} :
    c ∈ (stringsReplace s old new).data ↔
      ∃ a ∈ s.data, (a = old ∧ c ∈ new.data) ∨ (a ≠ old ∧ c = a) := by
  simp only [stringsReplace, List.mem_flatMap]
  constructor
  · rintro ⟨a, ha, hc⟩
    refine ⟨a, ha, ?_⟩
    by_cases h : a = old
    · rw [if_pos h] at hc; exact Or.inl ⟨h, hc⟩
    · rw [if_neg h] at hc; exact Or.inr ⟨h, by simpa using hc⟩
  · rintro ⟨a, ha, h⟩
    refine ⟨a, ha, ?_⟩
    rcases h with ⟨h, hc⟩ | ⟨h, hc⟩
    · rw [if_pos h]; exact hc
    · rw [if_neg h]; simp [hc]

/-- After the replacement of `old`, the result holds no `old` unless `new` does. -/
theorem not_mem_stringsReplace_self (s : String) (old : Char) (new : String)
    (h : old ∉ new.data) : old ∉ (stringsReplace s old new).data := by
  intro hc
  obtain ⟨a, _, h1 | h1⟩ := mem_stringsReplace.1 hc
  · exact h h1.2
  · exact h1.1 h1.2.symm

/-- A replacement brings in no character that is neither in the string nor in `new`. -/
theorem not_mem_stringsReplace_of_not_mem (s : String) (old : Char) (new : String) (c : Char)
    (hs : c ∉ s.data) (h : c ∉ new.data) : c ∉ (stringsReplace s old new).data := by
  intro hc
  obtain ⟨a, ha, h1 | h1⟩ := mem_stringsReplace.1 hc
  · exact h h1.2
  · exact hs (h1.2 ▸ ha)

/-- A character that no replacement text holds, and that is a key of the visited
entries or absent from the string, is absent after the loop. -/
theorem not_mem_applyReplacements (c : Char) :
    ∀ (order : List (Char × String)) (str : String),
      (∀ p ∈ order, c ∉ p.2.data) → (c ∈ order.map Prod.fst ∨ c ∉ str.data) →
      c ∉ (applyReplacements order str).data
  | [], str, _, h => by
      rcases h with h | h
      · simp at h
      · simpa [applyReplacements] using h
  | (old, new) :: rest, str, hv, h => by
      have hnew : c ∉ new.data := hv (old, new) (List.mem_cons_self _ _)
      have hrest : ∀ p ∈ rest, c ∉ p.2.data := fun p hp => hv p (List.mem_cons_of_mem _ hp)
      rw [applyReplacements]
      apply not_mem_applyReplacements c rest _ hrest
      by_cases hc : c = old
      · subst hc
        exact Or.inr (not_mem_stringsReplace_self str c new hnew)
      · rcases h with h | h
        · simp only [List.map_cons, List.mem_cons] at h
          rcases h with h | h
          · exact absurd h hc
          · exact Or.inl h
        · exact Or.inr (not_mem_stringsReplace_of_not_mem str old new c h hnew)

/-- The decimal digits are the characters `isDigit` accepts. -/
theorem isDigit_iff_mem (c : Char) : c.isDigit = true ↔ c ∈ "0123456789".data := by
  constructor
  · intro h
    have h1 : 48 ≤ c.toNat ∧ c.toNat ≤ 57 := by
      simpa [Char.isDigit, Char.toNat, UInt32.le_def, Fin.le_def] using h
    have h2 : c = Char.ofNat c.toNat := by simp
    obtain ⟨h3, h4⟩ := h1
    rw [h2]
    generalize c.toNat = n at h3 h4
    interval_cases n <;> decide
  · intro h
    simp only [List.mem_cons] at h
    rcases h with rfl | rfl | rfl | rfl | rfl | rfl | rfl | rfl | rfl | rfl | h
    all_goals first | rfl | simp at h

theorem digitChar_isDigit (n : Nat) (h : n < 10) : (Nat.digitChar n).isDigit = true := by
  interval_cases n <;> rfl

theorem toDigitsCore_isDigit : ∀ (fuel n : Nat) (acc : List Char),
    (∀ c ∈ acc, c.isDigit = true) → ∀ c ∈ Nat.toDigitsCore 10 fuel n acc, c.isDigit = true
  | 0, _, acc, hacc => by simpa [Nat.toDigitsCore] using hacc
  | fuel + 1, n, acc, hacc => by
      have hd : (Nat.digitChar (n % 10)).isDigit = true :=
        digitChar_isDigit _ (Nat.mod_lt _ (by decide))
      have hacc2 : ∀ c ∈ Nat.digitChar (n % 10) :: acc, c.isDigit = true := by
        intro c hc
        rcases List.mem_cons.1 hc with rfl | hc
        · exact hd
        · exact hacc c hc
      rw [Nat.toDigitsCore]
      split
      · exact hacc2
      · exact toDigitsCore_isDigit fuel _ _ hacc2

/-- The text `%d` prints for a natural number holds decimal digits only. -/
theorem toString_nat_isDigit (n : Nat) : ∀ c ∈ (toString n).data, c.isDigit = true := by
  show ∀ c ∈ (Nat.repr n).data, c.isDigit = true
  simp only [Nat.repr, Nat.toDigits, List.asString]
  exact toDigitsCore_isDigit _ _ [] (by simp)

/-! ## The identifier sanitizer -/

/-- The characters the claims about `postgresify` forbid are the keys of the table;
none occurs in a replacement text, in the placeholder prefix, or among the digits. -/
theorem forbidden_facts :
    ∀ c ∈ " /.:;|-,#[]\x7b\x7d()?!$%*\"".data,
      c ∈ replacements.map Prod.fst ∧ (∀ p ∈ replacements, c ∉ p.2.data) ∧
      c.isDigit = false ∧ c ∉ "_col".data ∧ c ≠ '_' := by
  decide

/-- What `postgresify` returns, in terms of the string left by the replacement loop. -/
theorem postgresify_cases (tbl : Char → Char) (e : Env) (identifier : String) :
    let str := applyReplacements e.rangeOrder (stringsTrimSpace (stringsToLower tbl identifier))
    (str.data = [] ∧ postgresify tbl e identifier = "_col" ++ toString e.randIntn) ∨
    (∃ c rest, str.data = c :: rest ∧ c.isDigit = true ∧
      postgresify tbl e identifier = "_" ++ str) ∨
    (∃ c rest, str.data = c :: rest ∧ c.isDigit = false ∧
      postgresify tbl e identifier = str) := by
  intro str
  cases h : str.data with
  | nil =>
      left
      refine ⟨rfl, ?_⟩
      simp only [postgresify]
      rw [show (applyReplacements e.rangeOrder
        (stringsTrimSpace (stringsToLower tbl identifier))).data = [] from h]
  | cons c rest =>
      right
      by_cases hd : c.isDigit = true
      · left
        refine ⟨c, rest, rfl, hd, ?_⟩
        simp only [postgresify]
        rw [show (applyReplacements e.rangeOrder
          (stringsTrimSpace (stringsToLower tbl identifier))).data = c :: rest from h]
        simp [hd, str]
      · right
        refine ⟨c, rest, rfl, by simpa using hd, ?_⟩
        simp only [postgresify]
        rw [show (applyReplacements e.rangeOrder
          (stringsTrimSpace (stringsToLower tbl identifier))).data = c :: rest from h]
        simp [hd, str]

/-- C9: for every input string, whatever the order in which the replacement table is
visited, the result of `postgresify` contains none of the characters
space / . : ; | - , # [ ] { } ( ) ? ! $ % * and double-quote. -/
theorem postgresify_no_forbidden (tbl : Char → Char) (e : Env) (identifier : String)
    (horder : e.rangeOrder.Perm replacements) :
    ∀ c ∈ " /.:;|-,#[]\x7b\x7d()?!$%*\"".data, c ∉ (postgresify tbl e identifier).data := by
  intro c hc
  obtain ⟨hkey, hval, hdig, hcol, hus⟩ := forbidden_facts c hc
  have hstr : c ∉ (applyReplacements e.rangeOrder
      (stringsTrimSpace (stringsToLower tbl identifier))).data := by
    apply not_mem_applyReplacements
    · intro p hp
      exact hval p (horder.mem_iff.1 hp)
    · left
      exact (horder.map Prod.fst).mem_iff.2 hkey
  rcases postgresify_cases tbl e identifier with ⟨_, h⟩ | ⟨_, _, _, _, h⟩ | ⟨_, _, _, _, h⟩
  · rw [h, data_append]
    intro hmem
    rcases List.mem_append.1 hmem with h1 | h1
    · exact hcol h1
    · have := toString_nat_isDigit _ c h1
      rw [hdig] at this
      exact absurd this (by decide)
  · rw [h, data_append]
    intro hmem
    rcases List.mem_append.1 hmem with h1 | h1
    · exact hus (by simpa using h1)
    · exact hstr h1
  · rw [h]
    exact hstr

/-- C9, at an input: the characters of `postgresify " A-b (c).d "` for the source
order of the table. -/
theorem postgresify_no_forbidden_witness :
    Env.default.rangeOrder.Perm replacements ∧
    postgresify id Env.default " A-b (c).d " = "a_b_c_d" ∧
    ∀ c ∈ " /.:;|-,#[]\x7b\x7d()?!$%*\"".data,
      c ∉ (postgresify id Env.default " A-b (c).d ").data :=
  ⟨List.Perm.refl _, by decide,
    postgresify_no_forbidden id Env.default " A-b (c).d " (List.Perm.refl _)⟩

/-- C10: for every input string (the empty string and strings of stripped characters
or white space included), in every environment, the result of `postgresify` is
non-empty and its first character is not a decimal digit. -/
theorem postgresify_nonempty_first_not_digit (tbl : Char → Char) (e : Env)
    (identifier : String) :
    postgresify tbl e identifier ≠ "" ∧
    ∃ c rest, (postgresify tbl e identifier).data = c :: rest ∧ c ∉ "0123456789".data := by
  have key : ∃ c rest, (postgresify tbl e identifier).data = c :: rest ∧
      c ∉ "0123456789".data := by
    rcases postgresify_cases tbl e identifier with ⟨_, h⟩ | ⟨_, _, _, _, h⟩ |
      ⟨c, rest, hs, hd, h⟩
    · refine ⟨'_', "col".data ++ (toString e.randIntn).data, ?_, by decide⟩
      rw [h, data_append]
      rfl
    · refine ⟨'_', (applyReplacements e.rangeOrder
        (stringsTrimSpace (stringsToLower tbl identifier))).data, ?_, by decide⟩
      rw [h, data_append]
      rfl
    · refine ⟨c, rest, ?_, ?_⟩
      · rw [h]; exact hs
      · intro hmem
        rw [(isDigit_iff_mem c).2 hmem] at hd
        exact absurd hd (by decide)
  refine ⟨?_, key⟩
  intro h0
  obtain ⟨c, rest, h1, _⟩ := key
  rw [h0] at h1
  exact absurd h1 (by simp)

/-! ## The column resolver -/

theorem stringsContains_singleton (s : String) (c : Char) :
    stringsContains s (String.singleton c) = true ↔ c ∈ s.data := by
  simp only [stringsContains, decide_eq_true_eq]
  show [c] <:+: s.data ↔ c ∈ s.data
  constructor
  · rintro ⟨a, b, h⟩
    rw [← h]
    simp
  · intro h
    obtain ⟨a, b, h⟩ := List.append_of_mem h
    exact ⟨a, b, by rw [h]; simp⟩

/-- The function `containsDelimiter` holds exactly of the strings with one of the
characters `; , | tab ^ ~`. -/
theorem containsDelimiter_iff (col : String) :
    containsDelimiter col = true ↔ ∃ c ∈ ";,|\t^~".data, c ∈ col.data := by
  have h1 := stringsContains_singleton col ';'
  have h2 := stringsContains_singleton col ','
  have h3 := stringsContains_singleton col '|'
  have h4 := stringsContains_singleton col '\t'
  have h5 := stringsContains_singleton col '^'
  have h6 := stringsContains_singleton col '~'
  have e1 : String.singleton ';' = ";" := rfl
  have e2 : String.singleton ',' = "," := rfl
  have e3 : String.singleton '|' = "|" := rfl
  have e4 : String.singleton '\t' = "\t" := rfl
  have e5 : String.singleton '^' = "^" := rfl
  have e6 : String.singleton '~' = "~" := rfl
  rw [e1] at h1; rw [e2] at h2; rw [e3] at h3; rw [e4] at h4; rw [e5] at h5; rw [e6] at h6
  simp only [containsDelimiter, Bool.or_eq_true, h1, h2, h3, h4, h5, h6]
  constructor
  · intro h
    rcases h with ((((h | h) | h) | h) | h) | h
    · exact ⟨';', by decide, h⟩
    · exact ⟨',', by decide, h⟩
    · exact ⟨'|', by decide, h⟩
    · exact ⟨'\t', by decide, h⟩
    · exact ⟨'^', by decide, h⟩
    · exact ⟨'~', by decide, h⟩
  · rintro ⟨c, hc, h⟩
    simp only [List.mem_cons] at hc
    rcases hc with rfl | rfl | rfl | rfl | rfl | rfl | hc
    · exact Or.inl (Or.inl (Or.inl (Or.inl (Or.inl h))))
    · exact Or.inl (Or.inl (Or.inl (Or.inl (Or.inr h))))
    · exact Or.inl (Or.inl (Or.inl (Or.inr h)))
    · exact Or.inl (Or.inl (Or.inr h))
    · exact Or.inl (Or.inr h)
    · exact Or.inr h
    · simp at hc

theorem firstDelimiterColumn_some :
    ∀ (columns : List String), (∃ col ∈ columns, containsDelimiter col = true) →
      ∃ col ∈ columns, containsDelimiter col = true ∧ firstDelimiterColumn columns = some col
  | [], h => by simp at h
  | col :: rest, h => by
      by_cases hc : containsDelimiter col = true
      · exact ⟨col, List.mem_cons_self _ _, hc, by simp [firstDelimiterColumn, hc]⟩
      · obtain ⟨col2, hmem, hc2⟩ := h
        have hrest : ∃ col ∈ rest, containsDelimiter col = true := by
          rcases List.mem_cons.1 hmem with rfl | hmem
          · exact absurd hc2 hc
          · exact ⟨col2, hmem, hc2⟩
        obtain ⟨col3, hmem3, hc3, hf⟩ := firstDelimiterColumn_some rest hrest
        exact ⟨col3, List.mem_cons_of_mem _ hmem3, hc3, by simp [firstDelimiterColumn, hc, hf]⟩

theorem length_postgresifyFrom (tbl : Char → Char) (env : Nat → Env) :
    ∀ (k : Nat) (columns : List String),
      (postgresifyFrom tbl env k columns).length = columns.length
  | _, [] => rfl
  | k, _ :: rest => by
      simp [postgresifyFrom, length_postgresifyFrom tbl env (k + 1) rest]

theorem getElem?_postgresifyFrom (tbl : Char → Char) (env : Nat → Env) :
    ∀ (k : Nat) (columns : List String) (i : Nat),
      (postgresifyFrom tbl env k columns)[i]? =
        (columns[i]?).map (postgresify tbl (env (k + i)))
  | _, [], _ => by simp [postgresifyFrom]
  | k, col :: rest, 0 => by simp [postgresifyFrom]
  | k, col :: rest, i + 1 => by
      simp only [postgresifyFrom, List.getElem?_cons_succ]
      rw [getElem?_postgresifyFrom tbl env (k + 1) rest i]
      have hk : k + 1 + i = k + (i + 1) := by omega
      rw [hk]

/-- The two ways `parseColumns` ends once the candidate names are known. -/
theorem parseColumns_of_fields (tbl : Char → Char) (env : Nat → Env) (reader : Reader)
    (skipHeader : Bool) (fields : String) (h : fields ≠ "") :
    parseColumns tbl env reader skipHeader fields =
      match firstDelimiterColumn (stringsSplit fields ',') with
      | some col => ((stringsSplit fields ',', some (.delimiter col)),
          if skipHeader then reader.Read.2 else reader)
      | none => ((postgresifyFrom tbl env 0 (stringsSplit fields ','), none),
          if skipHeader then reader.Read.2 else reader) := by
  simp only [parseColumns, ne_eq, h, not_false_eq_true, if_true]
  cases skipHeader <;> cases firstDelimiterColumn (stringsSplit fields ',') <;> simp

theorem parseColumns_of_header (tbl : Char → Char) (env : Nat → Env) (reader : Reader)
    (skipHeader : Bool) (columns : List String) (reader2 : Reader)
    (h : reader.Read = ((columns, none), reader2)) :
    parseColumns tbl env reader skipHeader "" =
      match firstDelimiterColumn columns with
      | some col => ((columns, some (.delimiter col)), reader2)
      | none => ((postgresifyFrom tbl env 0 columns, none), reader2) := by
  simp only [parseColumns, ne_eq, not_true_eq_false, if_false, h]

theorem parseColumns_of_header_err (tbl : Char → Char) (env : Nat → Env) (reader : Reader)
    (skipHeader : Bool) (record : List String) (err : GoError) (reader2 : Reader)
    (h : reader.Read = ((record, some err), reader2)) :
    parseColumns tbl env reader skipHeader "" = (([], some err), reader2) := by
  simp only [parseColumns, ne_eq, not_true_eq_false, if_false, h]

/-- A read takes the first pending record, if there is one, and no other. -/
theorem Read_pending (r : Reader) : r.Read.2.pending = r.pending.tail := by
  unfold Reader.Read
  cases h : r.pending with
  | nil => simp [h]
  | cons x rest => simp only; split_ifs <;> rfl

theorem Read_ok_pending (r : Reader) (record : List String) (r2 : Reader)
    (h : r.Read = ((record, none), r2)) :
    ∃ x, r.pending = x :: r2.pending ∧ x.fields = record ∧ x.err = none := by
  unfold Reader.Read at h
  cases hp : r.pending with
  | nil => rw [hp] at h; simp at h
  | cons x rest =>
      rw [hp] at h
      simp only at h
      refine ⟨x, ?_⟩
      split_ifs at h with h1 h2 h3
      · simp at h
      · simp only [Prod.mk.injEq] at h
        obtain ⟨⟨hf, he⟩, hr⟩ := h
        subst hr
        exact ⟨rfl, hf, he⟩
      · simp only [Prod.mk.injEq] at h
        obtain ⟨⟨hf, he⟩, hr⟩ := h
        subst hr
        exact ⟨rfl, hf, he⟩
      · simp only [Prod.mk.injEq] at h
        obtain ⟨⟨hf, he⟩, hr⟩ := h
        subst hr
        exact ⟨rfl, hf, he⟩

/-- C6: for every candidate column list, whether it is the header record read from
the source (`fields` empty) or the pieces of the explicit `fields` value, if some name
contains one of the characters `; , | tab ^ ~` then `parseColumns` returns the
delimiter-mismatch error (built for a name that contains such a character). -/
theorem parseColumns_delimiter_mismatch (tbl : Char → Char) (env : Nat → Env)
    (reader : Reader) (skipHeader : Bool) (fields : String) (candidates : List String)
    (hcand : (fields ≠ "" ∧ candidates = stringsSplit fields ',') ∨
      (fields = "" ∧ reader.Read.1 = (candidates, none)))
    (hbad : ∃ col ∈ candidates, ∃ c ∈ ";,|\t^~".data, c ∈ col.data) :
    ∃ col ∈ candidates, (∃ c ∈ ";,|\t^~".data, c ∈ col.data) ∧
      (parseColumns tbl env reader skipHeader fields).1 =
        (candidates, some (GoError.delimiter col)) := by
  have hbad2 : ∃ col ∈ candidates, containsDelimiter col = true := by
    obtain ⟨col, hmem, hc⟩ := hbad
    exact ⟨col, hmem, (containsDelimiter_iff col).2 hc⟩
  obtain ⟨col, hmem, hc, hfirst⟩ := firstDelimiterColumn_some candidates hbad2
  refine ⟨col, hmem, (containsDelimiter_iff col).1 hc, ?_⟩
  rcases hcand with ⟨hf, hsplit⟩ | ⟨hf, hread⟩
  · rw [parseColumns_of_fields tbl env reader skipHeader fields hf, ← hsplit, hfirst]
  · subst hf
    have hread2 : reader.Read = ((candidates, none), reader.Read.2) := by
      rw [← hread]
    rw [parseColumns_of_header tbl env reader skipHeader candidates _ hread2, hfirst]

/-- C6, at two inputs: a header record with a semicolon in its first name, and an
explicit field list with a tab in its second name. -/
theorem parseColumns_delimiter_mismatch_witness :
    (∃ col ∈ ["a;b", "c"], (∃ c ∈ ";,|\t^~".data, c ∈ col.data) ∧
      (parseColumns id (fun _ => Env.default) ⟨[Raw.record ["a;b", "c"]], 0⟩ false "").1 =
        (["a;b", "c"], some (GoError.delimiter col))) ∧
    (∃ col ∈ ["x", "y\tz"], (∃ c ∈ ";,|\t^~".data, c ∈ col.data) ∧
      (parseColumns id (fun _ => Env.default) ⟨[], 0⟩ true "x,y\tz").1 =
        (["x", "y\tz"], some (GoError.delimiter col))) :=
  ⟨parseColumns_delimiter_mismatch id (fun _ => Env.default) ⟨[Raw.record ["a;b", "c"]], 0⟩
      false "" ["a;b", "c"] (Or.inr ⟨rfl, by decide⟩)
      ⟨"a;b", by decide, ';', by decide, by decide⟩,
    parseColumns_delimiter_mismatch id (fun _ => Env.default) ⟨[], 0⟩
      true "x,y\tz" ["x", "y\tz"] (Or.inl ⟨by decide, by decide⟩)
      ⟨"y\tz", by decide, '\t', by decide, by decide⟩⟩

/-- C7 as stated fails: with explicit fields and `skipHeader` set, `parseColumns` on an
exhausted source succeeds and consumes no record (the one read it makes returns
`io.EOF`, which is dropped), where the claim has exactly one record consumed. -/
theorem parseColumns_skipHeader_consumes_nothing :
    parseColumns id (fun _ => Env.default) ⟨[], 0⟩ true "id,name" =
      ((["id", "name"], none), ⟨[], 0⟩) ∧
    (parseColumns id (fun _ => Env.default) ⟨[], 0⟩ true "id,name").2.pending.length + 1 ≠
      (Reader.mk [] 0).pending.length := by
  decide

/-- C7, amended: whenever `parseColumns` succeeds, the returned list has the length
and the order of the candidate names and its `i`-th entry is `postgresify` of the
`i`-th candidate.  With `fields` empty the candidates are the first record of the
source, and exactly that record is consumed; otherwise they are the pieces of `fields`
split on comma; when `skipHeader` is set exactly one read is made, which consumes and
discards exactly one record if the source has one and nothing if the source is
exhausted; when it is not set the reader is untouched. -/
theorem parseColumns_success (tbl : Char → Char) (env : Nat → Env) (reader : Reader)
    (skipHeader : Bool) (fields : String) (columns : List String) (reader2 : Reader)
    (h : parseColumns tbl env reader skipHeader fields = ((columns, none), reader2)) :
    ∃ candidates : List String,
      columns.length = candidates.length ∧
      (∀ i : Nat, columns[i]? = (candidates[i]?).map (postgresify tbl (env i))) ∧
      (fields = "" →
        reader.Read = ((candidates, none), reader2) ∧
        ∃ x, reader.pending = x :: reader2.pending ∧ x.fields = candidates) ∧
      (fields ≠ "" → candidates = stringsSplit fields ',' ∧
        (skipHeader = true →
          reader2 = reader.Read.2 ∧ reader2.pending = reader.pending.tail ∧
          (reader.pending ≠ [] → reader.pending.length = reader2.pending.length + 1) ∧
          (reader.pending = [] → reader2.pending = [])) ∧
        (skipHeader = false → reader2 = reader)) := by
  by_cases hf : fields = ""
  · subst hf
    rcases hread : reader.Read with ⟨⟨record, _ | err⟩, r2⟩
    · rw [parseColumns_of_header tbl env reader skipHeader record r2 hread] at h
      cases hfirst : firstDelimiterColumn record with
      | some col => rw [hfirst] at h; simp at h
      | none =>
          rw [hfirst] at h
          simp only [Prod.mk.injEq, and_true] at h
          obtain ⟨hcols, hr⟩ := h
          subst hr
          subst hcols
          refine ⟨record, length_postgresifyFrom tbl env 0 record, ?_, ?_, ?_⟩
          · intro i
            rw [getElem?_postgresifyFrom, Nat.zero_add]
          · intro _
            obtain ⟨x, hx, hxf, _⟩ := Read_ok_pending reader record r2 hread
            exact ⟨rfl, x, hx, hxf⟩
          · intro hne
            exact absurd rfl hne
    · rw [parseColumns_of_header_err tbl env reader skipHeader record err r2 hread] at h
      simp at h
  · rw [parseColumns_of_fields tbl env reader skipHeader fields hf] at h
    cases hfirst : firstDelimiterColumn (stringsSplit fields ',') with
    | some col => rw [hfirst] at h; simp at h
    | none =>
        rw [hfirst] at h
        simp only [Prod.mk.injEq, and_true] at h
        obtain ⟨hcols, hr⟩ := h
        subst hcols
        refine ⟨stringsSplit fields ',', length_postgresifyFrom tbl env 0 _, ?_, ?_, ?_⟩
        · intro i
          rw [getElem?_postgresifyFrom, Nat.zero_add]
        · intro he
          exact absurd he hf
        · intro _
          refine ⟨rfl, ?_, ?_⟩
          · intro hs
            rw [hs] at hr
            simp only [if_true] at hr
            have htail : reader2.pending = reader.pending.tail := by
              rw [← hr]; exact Read_pending reader
            refine ⟨hr.symm, htail, ?_, ?_⟩
            · intro hne
              rw [htail]
              cases hpend : reader.pending with
              | nil => exact absurd hpend hne
              | cons x rest => simp
            · intro hnil
              rw [htail, hnil]
              rfl
          · intro hs
            rw [hs] at hr
            simp only [Bool.false_eq_true, if_false] at hr
            exact hr.symm

/-- C7, amended, at three runs on the source `id,name / 1,Alice / 2,Bob`: the header
record gives the columns `[id, name]` of the example and is consumed; with the fields
`a,b` and `skipHeader` the header record is consumed and discarded; with the fields
`a,b` alone the reader is untouched. -/
theorem parseColumns_success_witness :
    parseColumns id (fun _ => Env.default) headerReader false "" =
      ((["id", "name"], none), headerReaderAfter) ∧
    headerReader.pending.length = headerReaderAfter.pending.length + 1 ∧
    (∃ candidates : List String,
      ["id", "name"].length = candidates.length ∧
      (∀ i : Nat, ["id", "name"][i]? =
        (candidates[i]?).map (postgresify id ((fun _ => Env.default) i))) ∧
      (("" : String) = "" →
        headerReader.Read = ((candidates, none), headerReaderAfter) ∧
        ∃ x, headerReader.pending = x :: headerReaderAfter.pending ∧ x.fields = candidates) ∧
      (("" : String) ≠ "" → candidates = stringsSplit "" ',' ∧
        (false = true →
          headerReaderAfter = headerReader.Read.2 ∧ headerReaderAfter.pending = headerReader.pending.tail ∧
          (headerReader.pending ≠ [] → headerReader.pending.length = headerReaderAfter.pending.length + 1) ∧
          (headerReader.pending = [] → headerReaderAfter.pending = [])) ∧
        (false = false → headerReaderAfter = headerReader))) ∧
    (∃ candidates : List String,
      ["a", "b"].length = candidates.length ∧
      (∀ i : Nat, ["a", "b"][i]? =
        (candidates[i]?).map (postgresify id ((fun _ => Env.default) i))) ∧
      (("a,b" : String) = "" →
        headerReader.Read = ((candidates, none), headerReaderAfter) ∧
        ∃ x, headerReader.pending = x :: headerReaderAfter.pending ∧ x.fields = candidates) ∧
      (("a,b" : String) ≠ "" → candidates = stringsSplit "a,b" ',' ∧
        (true = true →
          headerReaderAfter = headerReader.Read.2 ∧ headerReaderAfter.pending = headerReader.pending.tail ∧
          (headerReader.pending ≠ [] → headerReader.pending.length = headerReaderAfter.pending.length + 1) ∧
          (headerReader.pending = [] → headerReaderAfter.pending = [])) ∧
        (true = false → headerReaderAfter = headerReader))) ∧
    (∃ candidates : List String,
      ["a", "b"].length = candidates.length ∧
      (∀ i : Nat, ["a", "b"][i]? =
        (candidates[i]?).map (postgresify id ((fun _ => Env.default) i))) ∧
      (("a,b" : String) = "" →
        headerReader.Read = ((candidates, none), headerReader) ∧
        ∃ x, headerReader.pending = x :: headerReader.pending ∧ x.fields = candidates) ∧
      (("a,b" : String) ≠ "" → candidates = stringsSplit "a,b" ',' ∧
        (false = true →
          headerReader = headerReader.Read.2 ∧ headerReader.pending = headerReader.pending.tail ∧
          (headerReader.pending ≠ [] → headerReader.pending.length = headerReader.pending.length + 1) ∧
          (headerReader.pending = [] → headerReader.pending = [])) ∧
        (false = false → headerReader = headerReader))) :=
  ⟨by decide, by decide,
    parseColumns_success id (fun _ => Env.default) headerReader false "" ["id", "name"] headerReaderAfter (by decide),
    parseColumns_success id (fun _ => Env.default) headerReader true "a,b" ["a", "b"] headerReaderAfter (by decide),
    parseColumns_success id (fun _ => Env.default) headerReader false "a,b" ["a", "b"] headerReader (by decide)⟩

/-- C8 as stated fails: on an empty source with explicit fields and `skipHeader`,
the read that consumes the header fails with `io.EOF`, and `parseColumns` still
returns the columns and no error. -/
theorem parseColumns_skipHeader_read_error_dropped :
    (Reader.mk [] 0).Read.1.2 = some GoError.EOF ∧
    parseColumns id (fun _ => Env.default) ⟨[], 0⟩ true "a,b" =
      ((["a", "b"], none), ⟨[], 0⟩) := by
  decide

/-- C8, amended: whenever the read of the header record that supplies the column
names fails (`fields` empty), `parseColumns` returns that error and no columns.
With explicit fields the outcome of the read made for `skipHeader` is discarded:
the columns and the error are those obtained without a reader. -/
theorem parseColumns_header_read_error (tbl : Char → Char) (env : Nat → Env)
    (reader : Reader) (skipHeader : Bool) (fields : String) :
    (∀ err, fields = "" → reader.Read.1.2 = some err →
      (parseColumns tbl env reader skipHeader fields).1 = ([], some err)) ∧
    (fields ≠ "" →
      (parseColumns tbl env reader skipHeader fields).1 =
        (parseColumns tbl env ⟨[], 0⟩ false fields).1) := by
  constructor
  · intro err hf herr
    subst hf
    have hread : reader.Read = ((reader.Read.1.1, some err), reader.Read.2) := by
      rw [← herr]
    rw [parseColumns_of_header_err tbl env reader skipHeader _ err _ hread]
  · intro hf
    rw [parseColumns_of_fields tbl env reader skipHeader fields hf,
      parseColumns_of_fields tbl env ⟨[], 0⟩ false fields hf]
    cases firstDelimiterColumn (stringsSplit fields ',') <;> rfl

/-- C8, amended, at two inputs: an empty source and a source whose first record is
malformed, both without explicit fields; and an empty source with explicit fields. -/
theorem parseColumns_header_read_error_witness :
    (parseColumns id (fun _ => Env.default) ⟨[], 0⟩ false "").1 = ([], some GoError.EOF) ∧
    (parseColumns id (fun _ => Env.default)
      ⟨[Raw.malformed ["a"] "bare quote"], 0⟩ true "").1 =
        ([], some (GoError.parse "bare quote")) ∧
    (parseColumns id (fun _ => Env.default) ⟨[], 0⟩ true "a,b").1 =
      (parseColumns id (fun _ => Env.default) ⟨[], 0⟩ false "a,b").1 :=
  ⟨(parseColumns_header_read_error id (fun _ => Env.default) ⟨[], 0⟩ false "").1
      GoError.EOF rfl (by decide),
    (parseColumns_header_read_error id (fun _ => Env.default)
      ⟨[Raw.malformed ["a"] "bare quote"], 0⟩ true "").1
      (GoError.parse "bare quote") rfl (by decide),
    (parseColumns_header_read_error id (fun _ => Env.default) ⟨[], 0⟩ true "a,b").2
      (by decide)⟩

/-! ## The streaming driver -/

theorem fillCols_eq : ∀ (record : List String) (cols : List Val) (i : Nat),
    i ≤ cols.length →
    fillCols cols i record =
      if i + record.length ≤ cols.length then
        some (cols.take i ++ record.map some ++ cols.drop (i + record.length))
      else none
  | [], cols, i, hi => by
      simp [fillCols, hi]
  | col :: rest, cols, i, hi => by
      rw [fillCols]
      by_cases h : i < cols.length
      · rw [if_pos h, fillCols_eq rest _ (i + 1) (by simpa using h)]
        have h1 : i + 1 + rest.length = i + (col :: rest).length := by
          simp only [List.length_cons]; omega
        simp only [List.length_set, h1]
        split_ifs with h2
        · congr 1
          have hd : List.drop (i + (col :: rest).length) (cols.set i (some col)) =
              cols.drop (i + (col :: rest).length) :=
            List.drop_set_of_lt _ _ (by simp only [List.length_cons]; omega)
          have ht : List.take (i + 1) (cols.set i (some col)) = cols.take i ++ [some col] := by
            rw [List.set_eq_take_append_cons_drop, if_pos h, List.take_append_eq_append_take]
            have hl : (List.take i cols).length = i := by
              rw [List.length_take]; omega
            simp [hl]
          rw [hd, ht]
          simp
        · rfl
      · rw [if_neg h]
        have h2 : ¬ (i + (col :: rest).length ≤ cols.length) := by
          simp only [List.length_cons]; omega
        rw [if_neg h2]

/-- The row built for a record: the padded record when the record has at most as
many fields as there are columns, and a panic when it has more. -/
theorem makeCols_eq (columns record : List String) :
    makeCols columns record =
      if record.length ≤ columns.length then some (paddedRow columns record) else none := by
  rw [makeCols, fillCols_eq record _ 0 (Nat.zero_le _)]
  simp [paddedRow]

/-- A read from a reader with a pending record leaves the records after it. -/
theorem Read_cons (x : Raw) (rest : List Raw) (fpr : Int) :
    (Reader.mk (x :: rest) fpr).Read.2 =
      ⟨rest, (Reader.mk (x :: rest) fpr).Read.2.FieldsPerRecord⟩ := by
  have h := Read_pending (Reader.mk (x :: rest) fpr)
  simp only [List.tail_cons] at h
  cases hr : (Reader.mk (x :: rest) fpr).Read.2 with
  | mk pending f =>
      rw [hr] at h
      simp only at h
      rw [h]

/-- A read from a reader with a pending record does not return `io.EOF`. -/
theorem Read_cons_ne_EOF (x : Raw) (rest : List Raw) (fpr : Int) :
    (Reader.mk (x :: rest) fpr).Read.1.2 ≠ some GoError.EOF := by
  unfold Reader.Read
  simp only
  cases x <;> simp only [Raw.err, Raw.fields] <;> split_ifs <;> simp

theorem Read_nil (fpr : Int) :
    (Reader.mk [] fpr).Read = (([], some GoError.EOF), Reader.mk [] fpr) := rfl

theorem copyLoop_EOF {σ : Type} (S : Sink σ) (ignoreErrors : Bool)
    (delimiter : String) (columns : List String) (fuel : Nat) (reader reader2 : Reader) (w : World σ)
    (success failed : Nat) (record : List String)
    (h : reader.Read = ((record, some GoError.EOF), reader2)) :
    copyLoop S ignoreErrors delimiter columns (fuel + 1) reader w success failed =
      .returned ⟨none, success, failed, reader2, w⟩ := by
  simp [copyLoop, h]

theorem copyLoop_read_error {σ : Type} (S : Sink σ) (ignoreErrors : Bool)
    (delimiter : String) (columns : List String) (fuel : Nat) (reader reader2 : Reader) (w : World σ)
    (success failed : Nat) (record : List String) (err : GoError)
    (h : reader.Read = ((record, some err), reader2)) (he : err ≠ GoError.EOF) :
    copyLoop S ignoreErrors delimiter columns (fuel + 1) reader w success failed =
      if ignoreErrors then
        copyLoop S ignoreErrors delimiter columns fuel reader2
          { w with stderr := w.stderr ++ [stringsJoin record delimiter] } success (failed + 1)
      else
        .returned ⟨some (.row err (stringsJoin record delimiter)), success, failed + 1,
          reader2, w⟩ := by
  simp [copyLoop, h, he]

theorem copyLoop_panic {σ : Type} (S : Sink σ) (ignoreErrors : Bool)
    (delimiter : String) (columns : List String) (fuel : Nat) (reader reader2 : Reader) (w : World σ)
    (success failed : Nat) (record : List String)
    (h : reader.Read = ((record, none), reader2)) (hc : makeCols columns record = none) :
    copyLoop S ignoreErrors delimiter columns (fuel + 1) reader w success failed =
      .indexOutOfRange := by
  simp [copyLoop, h, hc]

theorem copyLoop_rejected {σ : Type} (S : Sink σ) (ignoreErrors : Bool)
    (delimiter : String) (columns : List String) (fuel : Nat) (reader reader2 : Reader) (w : World σ)
    (success failed : Nat) (record : List String) (cols : List Val) (err : GoError)
    (h : reader.Read = ((record, none), reader2)) (hc : makeCols columns record = some cols)
    (ha : (S.AddRow w.db cols).2 = some err) :
    copyLoop S ignoreErrors delimiter columns (fuel + 1) reader w success failed =
      if ignoreErrors then
        copyLoop S ignoreErrors delimiter columns fuel reader2
          { w with db := (S.AddRow w.db cols).1,
                   addRowCalls := w.addRowCalls ++ [(cols, some err)],
                   stderr := w.stderr ++ [stringsJoin record delimiter] } success (failed + 1)
      else
        .returned ⟨some (.row err (stringsJoin record delimiter)), success, failed + 1,
          reader2, { w with db := (S.AddRow w.db cols).1,
                            addRowCalls := w.addRowCalls ++ [(cols, some err)] }⟩ := by
  simp [copyLoop, h, hc, ha]

theorem copyLoop_accepted {σ : Type} (S : Sink σ) (ignoreErrors : Bool)
    (delimiter : String) (columns : List String) (fuel : Nat) (reader reader2 : Reader) (w : World σ)
    (success failed : Nat) (record : List String) (cols : List Val)
    (h : reader.Read = ((record, none), reader2)) (hc : makeCols columns record = some cols)
    (ha : (S.AddRow w.db cols).2 = none) :
    copyLoop S ignoreErrors delimiter columns (fuel + 1) reader w success failed =
      copyLoop S ignoreErrors delimiter columns fuel reader2
        { w with db := (S.AddRow w.db cols).1,
                 addRowCalls := w.addRowCalls ++ [(cols, none)] } (success + 1) failed := by
  simp [copyLoop, h, hc, ha]

theorem Read_eq_of_fst (x : Raw) (rest : List Raw) (fpr : Int) (record : List String)
    (e : Option GoError) (h : (Reader.mk (x :: rest) fpr).Read.1 = (record, e)) :
    (Reader.mk (x :: rest) fpr).Read =
      ((record, e), ⟨rest, (Reader.mk (x :: rest) fpr).Read.2.FieldsPerRecord⟩) := by
  rw [← h, ← Read_cons]

theorem makeCols_some (columns record : List String) (cols : List Val)
    (h : makeCols columns record = some cols) :
    cols = paddedRow columns record ∧ record.length ≤ columns.length := by
  rw [makeCols_eq] at h
  split_ifs at h with h1
  exact ⟨(Option.some.inj h).symm, h1⟩

theorem acceptAll_cons {σ : Type} (S : Sink σ) (columns : List String) (s s2 : σ)
    (record : List String) (rest : List (List String))
    (h : acceptAll S columns s (record :: rest) = some s2) :
    makeCols columns record = some (paddedRow columns record) ∧
    (S.AddRow s (paddedRow columns record)).2 = none ∧
    acceptAll S columns (S.AddRow s (paddedRow columns record)).1 rest = some s2 := by
  rw [acceptAll] at h
  cases hc : makeCols columns record with
  | none => rw [hc] at h; simp at h
  | some cols =>
      rw [hc] at h
      simp only at h
      obtain ⟨rfl, _⟩ := makeCols_some columns record cols hc
      cases ha : (S.AddRow s (paddedRow columns record)).2 with
      | none => rw [ha] at h; exact ⟨rfl, rfl, h⟩
      | some e => rw [ha] at h; simp at h

/-- The loop on a source whose records all decode and are all accepted. -/
theorem copyLoop_all_accepted {σ : Type} (S : Sink σ) (delimiter : String)
    (columns : List String) :
    ∀ (pending : List Raw) (fpr : Int) (w : World σ) (success failed : Nat)
      (records : List (List String)) (s2 : σ),
      readAllFrom pending fpr = records.map (fun r => (r, none)) →
      acceptAll S columns w.db records = some s2 →
      ∃ fpr2, copyLoop S false delimiter columns (pending.length + 1) ⟨pending, fpr⟩ w
          success failed =
        .returned ⟨none, success + records.length, failed, ⟨[], fpr2⟩,
          { w with db := s2,
                   addRowCalls := w.addRowCalls ++
                     records.map (fun r => (paddedRow columns r, none)) }⟩
  | [], fpr, w, success, failed, records, s2, hread, hacc => by
      cases records with
      | cons r rs => simp [readAllFrom] at hread
      | nil =>
          simp only [acceptAll, Option.some.injEq] at hacc
          subst hacc
          refine ⟨fpr, ?_⟩
          rw [copyLoop_EOF S false delimiter columns _ _ _ w success failed [] (Read_nil fpr)]
          simp
  | x :: rest, fpr, w, success, failed, records, s2, hread, hacc => by
      cases records with
      | nil => simp [readAllFrom] at hread
      | cons r rs =>
          simp only [readAllFrom, List.map_cons, List.cons.injEq] at hread
          obtain ⟨h1, h2⟩ := hread
          obtain ⟨hc, ha, hrest⟩ := acceptAll_cons S columns w.db s2 r rs hacc
          have hstep := copyLoop_accepted S false delimiter columns (rest.length + 1)
            ⟨x :: rest, fpr⟩ _ w success failed r _ (Read_eq_of_fst x rest fpr r none h1) hc ha
          obtain ⟨fpr2, ih⟩ := copyLoop_all_accepted S delimiter columns rest _
            { w with db := (S.AddRow w.db (paddedRow columns r)).1,
                     addRowCalls := w.addRowCalls ++ [(paddedRow columns r, none)] }
            (success + 1) failed rs s2 h2 hrest
          refine ⟨fpr2, ?_⟩
          rw [List.length_cons, hstep, ih]
          simp only [List.length_cons, List.map_cons, List.append_assoc, List.singleton_append]
          congr 2
          omega

/-- C1: for every source of `N` records that all decode without error and are all
accepted by `AddRow` (each call made for a record returns no error), `copyCSVRows`
with `ignoreErrors = false` returns no error with success count `N` and failure count
`0`; `AddRow` receives the rows of exactly those records, once each, in input order
(the fields of the record, which fill the row when the record has as many fields as
there are columns); the source is read to its end and nothing goes to the diagnostic
stream. -/
theorem copyCSVRows_all_accepted {σ : Type} (S : Sink σ) (w : World σ) (reader : Reader)
    (delimiter : String) (columns : List String) (records : List (List String)) (s2 : σ)
    (hread : reader.readAll = records.map (fun r => (r, none)))
    (hacc : acceptAll S columns w.db records = some s2) :
    ∃ res, copyCSVRows S w reader false delimiter columns = .returned res ∧
      res.err = none ∧ res.success = records.length ∧ res.failed = 0 ∧
      res.world.addRowCalls =
        w.addRowCalls ++ records.map (fun r => (paddedRow columns r, none)) ∧
      (∀ r ∈ records, r.length = columns.length → paddedRow columns r = r.map some) ∧
      res.world.db = s2 ∧ res.reader.pending = [] ∧ res.world.stderr = w.stderr ∧
      res.world.commits = w.commits := by
  obtain ⟨fpr2, h⟩ := copyLoop_all_accepted S delimiter columns reader.pending
    reader.FieldsPerRecord w 0 0 records s2 hread hacc
  refine ⟨_, h, rfl, by simp, rfl, rfl, ?_, rfl, rfl, rfl, rfl⟩
  intro r _ hr
  simp [paddedRow, hr]

/-- C1, at an input: two records of two fields into a two-column table. -/
theorem copyCSVRows_all_accepted_witness :
    ∃ res, copyCSVRows listSink ⟨[], [], 0, [], []⟩
        ⟨[Raw.record ["1", "Alice"], Raw.record ["2", "Bob"]], 2⟩ false ","
        ["id", "name"] = .returned res ∧
      res.err = none ∧ res.success = [["1", "Alice"], ["2", "Bob"]].length ∧ res.failed = 0 ∧
      res.world.addRowCalls =
        [] ++ [["1", "Alice"], ["2", "Bob"]].map
          (fun r => (paddedRow ["id", "name"] r, none)) ∧
      (∀ r ∈ [["1", "Alice"], ["2", "Bob"]], r.length = ["id", "name"].length →
        paddedRow ["id", "name"] r = r.map some) ∧
      res.world.db = [[some "1", some "Alice"], [some "2", some "Bob"]] ∧
      res.reader.pending = [] ∧ res.world.stderr = [] ∧ res.world.commits = 0 :=
  copyCSVRows_all_accepted listSink ⟨[], [], 0, [], []⟩
    ⟨[Raw.record ["1", "Alice"], Raw.record ["2", "Bob"]], 2⟩ "," ["id", "name"]
    [["1", "Alice"], ["2", "Bob"]] [[some "1", some "Alice"], [some "2", some "Bob"]]
    (by decide) (by decide)

/-- The loop on a source whose first failing record comes after the records `pre`. -/
theorem copyLoop_first_failure {σ : Type} (S : Sink σ) (delimiter : String)
    (columns : List String) (record : List String) (e : Option GoError)
    (post : List (List String × Option GoError)) (s1 : σ) :
    ∀ (pre : List (List String)) (pending : List Raw) (fpr : Int) (w : World σ)
      (success failed : Nat),
      readAllFrom pending fpr = pre.map (fun r => (r, none)) ++ (record, e) :: post →
      acceptAll S columns w.db pre = some s1 →
      ((∃ err, e = some err) ∨
        (e = none ∧ ∃ cols err, makeCols columns record = some cols ∧
          (S.AddRow s1 cols).2 = some err)) →
      ∃ res, copyLoop S false delimiter columns (pending.length + 1) ⟨pending, fpr⟩ w
          success failed = .returned res ∧
        (∃ cause, res.err = some (.row cause (stringsJoin record delimiter))) ∧
        res.success = success + pre.length ∧ res.failed = failed + 1 ∧
        res.reader.readAll = post ∧
        res.reader.pending = pending.drop (pre.length + 1) ∧
        res.world.addRowCalls.map Prod.fst =
          w.addRowCalls.map Prod.fst ++ pre.map (paddedRow columns) ++
            (if e = none then [paddedRow columns record] else []) ∧
        res.world.stderr = w.stderr ∧ res.world.commits = w.commits
  | [], pending, fpr, w, success, failed, hread, hacc, hfail => by
      simp only [acceptAll, Option.some.injEq] at hacc
      subst hacc
      cases pending with
      | nil => simp [readAllFrom] at hread
      | cons x rest =>
          simp only [readAllFrom, List.map_nil, List.nil_append, List.cons.injEq] at hread
          obtain ⟨h1, h2⟩ := hread
          have hrd := Read_eq_of_fst x rest fpr record e h1
          rcases hfail with ⟨err, he⟩ | ⟨he, cols, err, hc, ha⟩
          · subst he
            have hne : err ≠ GoError.EOF := by
              intro h0
              have := Read_cons_ne_EOF x rest fpr
              rw [h1, h0] at this
              exact this rfl
            refine ⟨⟨some (.row err (stringsJoin record delimiter)), success, failed + 1,
              ⟨rest, (Reader.mk (x :: rest) fpr).Read.2.FieldsPerRecord⟩, w⟩,
              ?_, ⟨err, rfl⟩, ?_, rfl, ?_, ?_, ?_, rfl, rfl⟩
            · rw [List.length_cons,
                copyLoop_read_error S false delimiter columns _ _ _ w success failed
                  record err hrd hne]
              rfl
            · simp
            · exact h2
            · simp
            · simp
          · subst he
            obtain ⟨rfl, _⟩ := makeCols_some columns record cols hc
            refine ⟨⟨some (.row err (stringsJoin record delimiter)), success, failed + 1,
              ⟨rest, (Reader.mk (x :: rest) fpr).Read.2.FieldsPerRecord⟩,
              { w with db := (S.AddRow w.db (paddedRow columns record)).1,
                       addRowCalls := w.addRowCalls ++
                         [(paddedRow columns record, some err)] }⟩,
              ?_, ⟨err, rfl⟩, ?_, rfl, ?_, ?_, ?_, rfl, rfl⟩
            · rw [List.length_cons,
                copyLoop_rejected S false delimiter columns _ _ _ w success failed
                  record _ err hrd hc ha]
              rfl
            · simp
            · exact h2
            · simp
            · simp
  | r :: rs, pending, fpr, w, success, failed, hread, hacc, hfail => by
      cases pending with
      | nil => simp [readAllFrom] at hread
      | cons x rest =>
          simp only [readAllFrom, List.map_cons, List.cons_append, List.cons.injEq] at hread
          obtain ⟨h1, h2⟩ := hread
          obtain ⟨hc, ha, hrest⟩ := acceptAll_cons S columns w.db s1 r rs hacc
          have hstep := copyLoop_accepted S false delimiter columns (rest.length + 1)
            ⟨x :: rest, fpr⟩ _ w success failed r _ (Read_eq_of_fst x rest fpr r none h1) hc ha
          obtain ⟨res, ih, hcause, hs, hf, hra, hp, hlog, herr, hcom⟩ :=
            copyLoop_first_failure S delimiter columns record e post s1 rs rest _
              { w with db := (S.AddRow w.db (paddedRow columns r)).1,
                       addRowCalls := w.addRowCalls ++ [(paddedRow columns r, none)] }
              (success + 1) failed h2 hrest hfail
          refine ⟨res, ?_, hcause, ?_, hf, hra, ?_, ?_, herr, hcom⟩
          · rw [List.length_cons, hstep, ih]
          · rw [hs, List.length_cons]; omega
          · rw [hp]; simp
          · rw [hlog]; simp

/-- C2: with `ignoreErrors = false`, for every source whose first failing record
(a decode error, or an error of the `AddRow` call made for it) is the `k`-th, after
`k - 1` records that decode and are accepted, `copyCSVRows` returns a non-nil error
(the cause wrapped with the line of the record) with success count `k - 1` and failure
count `1`; the records after the `k`-th stay unread in the reader, and `AddRow` has
received the rows of the first `k - 1` records and, when the `k`-th decoded, its row,
and nothing else. -/
theorem copyCSVRows_first_failure {σ : Type} (S : Sink σ) (w : World σ) (reader : Reader)
    (delimiter : String) (columns : List String) (pre : List (List String))
    (record : List String) (e : Option GoError)
    (post : List (List String × Option GoError)) (s1 : σ)
    (hread : reader.readAll = pre.map (fun r => (r, none)) ++ (record, e) :: post)
    (hacc : acceptAll S columns w.db pre = some s1)
    (hfail : (∃ err, e = some err) ∨
      (e = none ∧ ∃ cols err, makeCols columns record = some cols ∧
        (S.AddRow s1 cols).2 = some err)) :
    ∃ res, copyCSVRows S w reader false delimiter columns = .returned res ∧
      res.err ≠ none ∧
      (∃ cause, res.err = some (.row cause (stringsJoin record delimiter))) ∧
      res.success = (pre.length + 1) - 1 ∧ res.failed = 1 ∧
      res.reader.readAll = post ∧
      res.reader.pending = reader.pending.drop (pre.length + 1) ∧
      res.world.addRowCalls.map Prod.fst =
        w.addRowCalls.map Prod.fst ++ pre.map (paddedRow columns) ++
          (if e = none then [paddedRow columns record] else []) ∧
      res.world.stderr = w.stderr ∧ res.world.commits = w.commits := by
  obtain ⟨res, h, hcause, hs, hf, hra, hp, hlog, herr, hcom⟩ :=
    copyLoop_first_failure S delimiter columns record e post s1 pre reader.pending
      reader.FieldsPerRecord w 0 0 hread hacc hfail
  refine ⟨res, h, ?_, hcause, ?_, ?_, hra, hp, hlog, herr, hcom⟩
  · obtain ⟨cause, hc⟩ := hcause
    rw [hc]
    simp
  · rw [hs]; omega
  · rw [hf]

/-- C2, at two inputs: a source whose second record has too few fields for the
reader, and a source whose second record is rejected by `AddRow`; a third record
follows in both. -/
theorem copyCSVRows_first_failure_witness :
    (∃ res, copyCSVRows listSink ⟨[], [], 0, [], []⟩
        ⟨[Raw.record ["1", "a"], Raw.record ["2"], Raw.record ["3", "c"]], 2⟩ false ","
        ["id", "name"] = .returned res ∧
      res.err ≠ none ∧
      (∃ cause, res.err = some (.row cause (stringsJoin ["2"] ","))) ∧
      res.success = ([["1", "a"]].length + 1) - 1 ∧ res.failed = 1 ∧
      res.reader.readAll = [(["3", "c"], none)] ∧
      res.reader.pending =
        [Raw.record ["1", "a"], Raw.record ["2"], Raw.record ["3", "c"]].drop
          ([["1", "a"]].length + 1) ∧
      res.world.addRowCalls.map Prod.fst =
        [] ++ [["1", "a"]].map (paddedRow ["id", "name"]) ++
          (if some GoError.fieldCount = none then [paddedRow ["id", "name"] ["2"]] else []) ∧
      res.world.stderr = [] ∧ res.world.commits = 0) ∧
    (∃ res, copyCSVRows listSink ⟨[], [], 0, [], []⟩
        ⟨[Raw.record ["1", "a"], Raw.record ["bad", "b"], Raw.record ["3", "c"]], 2⟩ false ","
        ["id", "name"] = .returned res ∧
      res.err ≠ none ∧
      (∃ cause, res.err = some (.row cause (stringsJoin ["bad", "b"] ","))) ∧
      res.success = ([["1", "a"]].length + 1) - 1 ∧ res.failed = 1 ∧
      res.reader.readAll = [(["3", "c"], none)] ∧
      res.reader.pending =
        [Raw.record ["1", "a"], Raw.record ["bad", "b"], Raw.record ["3", "c"]].drop
          ([["1", "a"]].length + 1) ∧
      res.world.addRowCalls.map Prod.fst =
        [] ++ [["1", "a"]].map (paddedRow ["id", "name"]) ++
          (if (none : Option GoError) = none then [paddedRow ["id", "name"] ["bad", "b"]]
            else []) ∧
      res.world.stderr = [] ∧ res.world.commits = 0) :=
  ⟨copyCSVRows_first_failure listSink ⟨[], [], 0, [], []⟩
      ⟨[Raw.record ["1", "a"], Raw.record ["2"], Raw.record ["3", "c"]], 2⟩ ","
      ["id", "name"] [["1", "a"]] ["2"] (some GoError.fieldCount) [(["3", "c"], none)]
      [[some "1", some "a"]] (by decide) (by decide) (Or.inl ⟨_, rfl⟩),
    copyCSVRows_first_failure listSink ⟨[], [], 0, [], []⟩
      ⟨[Raw.record ["1", "a"], Raw.record ["bad", "b"], Raw.record ["3", "c"]], 2⟩ ","
      ["id", "name"] [["1", "a"]] ["bad", "b"] none [(["3", "c"], none)]
      [[some "1", some "a"]] (by decide) (by decide)
      (Or.inr ⟨rfl, [some "bad", some "b"], GoError.sink "rejected", by decide, by decide⟩)⟩

theorem makeCols_of_le (columns record : List String)
    (h : record.length ≤ columns.length) :
    makeCols columns record = some (paddedRow columns record) := by
  rw [makeCols_eq, if_pos h]

/-- The loop under `ignoreErrors` on a source whose decoded records fit the columns. -/
theorem copyLoop_ignoreErrors {σ : Type} (S : Sink σ) (delimiter : String)
    (columns : List String) :
    ∀ (pending : List Raw) (fpr : Int) (w : World σ) (success failed : Nat),
      (∀ x ∈ readAllFrom pending fpr, x.2 = none → x.1.length ≤ columns.length) →
      ∃ res calls, copyLoop S true delimiter columns (pending.length + 1) ⟨pending, fpr⟩ w
          success failed = .returned res ∧
        res.err = none ∧
        res.world.addRowCalls = w.addRowCalls ++ calls ∧
        calls.map Prod.fst =
          ((readAllFrom pending fpr).filter (fun x => x.2.isNone)).map
            (fun x => paddedRow columns x.1) ∧
        res.failed = failed + ((readAllFrom pending fpr).filter (fun x => x.2.isSome)).length
          + (calls.filter (fun c => c.2.isSome)).length ∧
        res.success + res.failed = success + failed + (readAllFrom pending fpr).length ∧
        res.reader.pending = [] ∧ res.world.commits = w.commits
  | [], fpr, w, success, failed, _ => by
      refine ⟨⟨none, success, failed, ⟨[], fpr⟩, w⟩, [], ?_, rfl, ?_, ?_, ?_, ?_, rfl, rfl⟩
      · exact copyLoop_EOF S true delimiter columns _ _ _ w success failed [] (Read_nil fpr)
      · simp
      · simp [readAllFrom]
      · simp [readAllFrom]
      · simp [readAllFrom]
  | x :: rest, fpr, w, success, failed, hfit => by
      rcases h1 : (Reader.mk (x :: rest) fpr).Read.1 with ⟨record, e⟩
      have hrd := Read_eq_of_fst x rest fpr record e h1
      have hall : readAllFrom (x :: rest) fpr =
          (record, e) :: readAllFrom rest (Reader.mk (x :: rest) fpr).Read.2.FieldsPerRecord := by
        rw [readAllFrom, h1]
      have hfit2 : ∀ y ∈ readAllFrom rest (Reader.mk (x :: rest) fpr).Read.2.FieldsPerRecord,
          y.2 = none → y.1.length ≤ columns.length := by
        intro y hy
        apply hfit
        rw [hall]
        exact List.mem_cons_of_mem _ hy
      cases e with
      | some err =>
          have hne : err ≠ GoError.EOF := by
            intro h0
            have := Read_cons_ne_EOF x rest fpr
            rw [h1, h0] at this
            exact this rfl
          have hstep := copyLoop_read_error S true delimiter columns (rest.length + 1)
            ⟨x :: rest, fpr⟩ _ w success failed record err hrd hne
          obtain ⟨res, calls, ih, herr, hlog, hfst, hf, hs, hp, hcom⟩ :=
            copyLoop_ignoreErrors S delimiter columns rest _
              { w with stderr := w.stderr ++ [stringsJoin record delimiter] }
              success (failed + 1) hfit2
          refine ⟨res, calls, ?_, herr, hlog, ?_, ?_, ?_, hp, hcom⟩
          · rw [List.length_cons, hstep, if_pos rfl, ih]
          · rw [hfst, hall]; simp
          · rw [hf, hall]; simp; omega
          · rw [hs, hall]; simp; omega
      | none =>
          have hle : record.length ≤ columns.length := by
            apply hfit (record, none) _ rfl
            rw [hall]
            exact List.mem_cons_self _ _
          have hc := makeCols_of_le columns record hle
          cases ha : (S.AddRow w.db (paddedRow columns record)).2 with
          | none =>
              have hstep := copyLoop_accepted S true delimiter columns (rest.length + 1)
                ⟨x :: rest, fpr⟩ _ w success failed record _ hrd hc ha
              obtain ⟨res, calls, ih, herr, hlog, hfst, hf, hs, hp, hcom⟩ :=
                copyLoop_ignoreErrors S delimiter columns rest _
                  { w with db := (S.AddRow w.db (paddedRow columns record)).1,
                           addRowCalls := w.addRowCalls ++ [(paddedRow columns record, none)] }
                  (success + 1) failed hfit2
              refine ⟨res, (paddedRow columns record, none) :: calls, ?_, herr, ?_, ?_, ?_, ?_,
                hp, hcom⟩
              · rw [List.length_cons, hstep, ih]
              · rw [hlog]; simp
              · rw [hall]; simp [hfst]
              · rw [hf, hall]; simp
              · rw [hs, hall]; simp; omega
          | some err =>
              have hstep := copyLoop_rejected S true delimiter columns (rest.length + 1)
                ⟨x :: rest, fpr⟩ _ w success failed record _ err hrd hc ha
              obtain ⟨res, calls, ih, herr, hlog, hfst, hf, hs, hp, hcom⟩ :=
                copyLoop_ignoreErrors S delimiter columns rest _
                  { w with db := (S.AddRow w.db (paddedRow columns record)).1,
                           addRowCalls := w.addRowCalls ++
                             [(paddedRow columns record, some err)],
                           stderr := w.stderr ++ [stringsJoin record delimiter] }
                  success (failed + 1) hfit2
              refine ⟨res, (paddedRow columns record, some err) :: calls, ?_, herr, ?_, ?_, ?_,
                ?_, hp, hcom⟩
              · rw [List.length_cons, hstep, if_pos rfl, ih]
              · rw [hlog]; simp
              · rw [hall]; simp [hfst]
              · rw [hf, hall]; simp; omega
              · rw [hs, hall]; simp; omega

/-- Over `Reader.Read` the general loop is `copyLoop`. -/
theorem copyLoopWith_Read {σ : Type} (S : Sink σ) (ignoreErrors : Bool) (delimiter : String)
    (columns : List String) :
    ∀ (fuel : Nat) (reader : Reader) (w : World σ) (success failed : Nat),
      copyLoopWith Reader.Read S ignoreErrors delimiter columns fuel reader w success failed =
        copyLoop S ignoreErrors delimiter columns fuel reader w success failed
  | 0, _, _, _, _ => rfl
  | fuel + 1, reader, w, success, failed => by
      have ih := copyLoopWith_Read S ignoreErrors delimiter columns fuel
      simp only [copyLoopWith, copyLoop, ih]

/-- A reader with a valid `Comma` reads as `Reader.Read` does. -/
theorem readWithComma_valid (comma : Char) (h : validDelim comma = true) :
    readWithComma comma = Reader.Read := by
  funext r
  simp [readWithComma, h]

/-- With a `Comma` that is no valid delimiter and `ignoreErrors` set, no number of
iterations brings the loop to a return: every read fails and is counted. -/
theorem copyLoopWith_invalid {σ : Type} (S : Sink σ) (delimiter : String)
    (columns : List String) (comma : Char) (h : validDelim comma = false) :
    ∀ (fuel : Nat) (reader : Reader) (w : World σ) (success failed : Nat),
      copyLoopWith (readWithComma comma) S true delimiter columns fuel reader w
        success failed = .outOfFuel
  | 0, _, _, _, _ => rfl
  | fuel + 1, reader, w, success, failed => by
      have ih := copyLoopWith_invalid S delimiter columns comma h fuel
      simp [copyLoopWith, readWithComma, h, errInvalidDelim, ih]

/-- A reader with `FieldsPerRecord = n > 0` keeps that value, and the records it
returns without error have exactly `n` fields. -/
theorem readAllFrom_configured (n : Nat) (hn : 0 < n) :
    ∀ (pending : List Raw), ∀ x ∈ readAllFrom pending (n : Int), x.2 = none → x.1.length = n
  | [], x, hx, _ => by simp [readAllFrom] at hx
  | y :: rest, x, hx, hnone => by
      have hpos : (0 : Int) < (n : Int) := by exact_mod_cast hn
      have hfpr : (Reader.mk (y :: rest) (n : Int)).Read.2.FieldsPerRecord = (n : Int) := by
        simp only [Reader.Read, hpos, if_true]
        split_ifs <;> rfl
      rw [readAllFrom, hfpr] at hx
      rcases List.mem_cons.1 hx with hx | hx
      · subst hx
        simp only [Reader.Read, hpos, if_true] at hnone ⊢
        split_ifs at hnone ⊢ with hc
        have hc2 : (y.fields.length : Int) = (n : Int) := by
          by_contra hne
          exact hc ⟨hne, hnone⟩
        show y.fields.length = n
        exact_mod_cast hc2
      · exact readAllFrom_configured n hn rest x hx hnone

/-- C3 as stated fails: called with the delimiter `""` and the explicit fields `a,b`,
`ImportCSV` builds on csv.go:154 a reader whose `Comma` is `utf8.RuneError`;
`parseColumns` takes the columns from the fields without a read, and the reader goes
to `copyCSVRows` with `FieldsPerRecord = 2`.  Every `Read` of it returns
`errInvalidDelim` and never `io.EOF`, so under `ignoreErrors` the loop counts a failure
in every iteration and never returns, whatever the source holds: no number of
iterations reaches a return. -/
theorem copyCSVRows_invalid_delimiter_never_returns :
    validDelim (decodeRune "") = false ∧
    parseColumns id (fun _ => Env.default) ⟨[Raw.record ["1", "2"]], 0⟩ false "a,b" =
      ((["a", "b"], none), ⟨[Raw.record ["1", "2"]], 0⟩) ∧
    (readWithComma (decodeRune "") ⟨[Raw.record ["1", "2"]], 2⟩).1 =
      ([], some errInvalidDelim) ∧
    ∀ fuel : Nat,
      copyLoopWith (readWithComma (decodeRune "")) listSink true "" ["a", "b"] fuel
        ⟨[Raw.record ["1", "2"]], 2⟩ emptyWorld 0 0 = Exec.outOfFuel :=
  ⟨by decide, by decide, by decide,
    fun fuel => copyLoopWith_invalid listSink "" ["a", "b"] (decodeRune "") (by decide)
      fuel _ _ _ _⟩

/-- C3, amended: with `ignoreErrors = true`, for every source of `N` records read with
a valid delimiter by a reader set up as `ImportCSV` sets it up
(`FieldsPerRecord = len(columns)`), `copyCSVRows` returns no error; the failure count
is the number of records that failed to decode plus the number of `AddRow` calls that
returned an error; the success count is `N` minus the failure count; the records that
failed to decode are not passed to `AddRow` and all the others are, once each, in
input order; the source is read to its end. -/
theorem copyCSVRows_ignoreErrors {σ : Type} (S : Sink σ) (w : World σ) (reader : Reader)
    (delimiter : String) (columns : List String) (comma : Char)
    (hvalid : validDelim comma = true)
    (hfpr : reader.FieldsPerRecord = columns.length) (hcols : 0 < columns.length) :
    ∃ res calls,
      copyLoopWith (readWithComma comma) S true delimiter columns
        (reader.pending.length + 1) reader w 0 0 = .returned res ∧
      copyCSVRows S w reader true delimiter columns = .returned res ∧
      res.err = none ∧
      res.world.addRowCalls = w.addRowCalls ++ calls ∧
      calls.map Prod.fst =
        (reader.readAll.filter (fun x => x.2.isNone)).map (fun x => x.1.map some) ∧
      res.failed = (reader.readAll.filter (fun x => x.2.isSome)).length
        + (calls.filter (fun c => c.2.isSome)).length ∧
      res.success = reader.readAll.length - res.failed ∧
      res.failed ≤ reader.readAll.length ∧
      res.reader.pending = [] ∧ res.world.commits = w.commits := by
  have hlen : ∀ x ∈ readAllFrom reader.pending reader.FieldsPerRecord, x.2 = none →
      x.1.length = columns.length := by
    rw [hfpr]
    exact readAllFrom_configured columns.length hcols reader.pending
  obtain ⟨res, calls, h, herr, hlog, hfst, hf, hs, hp, hcom⟩ :=
    copyLoop_ignoreErrors S delimiter columns reader.pending reader.FieldsPerRecord w 0 0
      (fun x hx hnone => le_of_eq (hlen x hx hnone))
  refine ⟨res, calls, ?_, h, herr, hlog, ?_, ?_, ?_, ?_, hp, hcom⟩
  · rw [readWithComma_valid comma hvalid, copyLoopWith_Read]
    exact h
  · rw [hfst]
    simp only [Reader.readAll]
    apply List.map_congr_left
    intro x hx
    have hx2 := List.mem_filter.1 hx
    have hnone : x.2 = none := by simpa using hx2.2
    simp [paddedRow, hlen x hx2.1 hnone]
  · rw [hf]; simp [Reader.readAll]
  · simp only [Reader.readAll]; omega
  · simp only [Reader.readAll]; omega

/-- C3, amended, at an input: four records for a two-column import read with the
comma as delimiter, the second with too few fields and the third rejected by
`AddRow`: two successes and two failures. -/
theorem copyCSVRows_ignoreErrors_witness :
    validDelim ',' = true ∧
    copyCSVRows listSink emptyWorld
        ⟨[Raw.record ["1", "a"], Raw.record ["2"], Raw.record ["bad", "b"],
          Raw.record ["4", "d"]], 2⟩ true "," ["id", "name"] =
      .returned ⟨none, 2, 2, ⟨[], 2⟩,
        ⟨[[some "1", some "a"], [some "4", some "d"]],
          [([some "1", some "a"], none), ([some "bad", some "b"], some (.sink "rejected")),
            ([some "4", some "d"], none)], 0, ["2", "bad,b"], []⟩⟩ ∧
    ∃ res calls,
      copyLoopWith (readWithComma ',') listSink true "," ["id", "name"]
        ((Reader.mk [Raw.record ["1", "a"], Raw.record ["2"], Raw.record ["bad", "b"],
          Raw.record ["4", "d"]] 2).pending.length + 1)
        ⟨[Raw.record ["1", "a"], Raw.record ["2"], Raw.record ["bad", "b"],
          Raw.record ["4", "d"]], 2⟩ emptyWorld 0 0 = .returned res ∧
      copyCSVRows listSink emptyWorld
        ⟨[Raw.record ["1", "a"], Raw.record ["2"], Raw.record ["bad", "b"],
          Raw.record ["4", "d"]], 2⟩ true "," ["id", "name"] = .returned res ∧
      res.err = none ∧
      res.world.addRowCalls = emptyWorld.addRowCalls ++ calls ∧
      calls.map Prod.fst =
        ((Reader.mk [Raw.record ["1", "a"], Raw.record ["2"], Raw.record ["bad", "b"],
          Raw.record ["4", "d"]] 2).readAll.filter (fun x => x.2.isNone)).map
          (fun x => x.1.map some) ∧
      res.failed =
        ((Reader.mk [Raw.record ["1", "a"], Raw.record ["2"], Raw.record ["bad", "b"],
          Raw.record ["4", "d"]] 2).readAll.filter (fun x => x.2.isSome)).length
        + (calls.filter (fun c => c.2.isSome)).length ∧
      res.success =
        (Reader.mk [Raw.record ["1", "a"], Raw.record ["2"], Raw.record ["bad", "b"],
          Raw.record ["4", "d"]] 2).readAll.length - res.failed ∧
      res.failed ≤
        (Reader.mk [Raw.record ["1", "a"], Raw.record ["2"], Raw.record ["bad", "b"],
          Raw.record ["4", "d"]] 2).readAll.length ∧
      res.reader.pending = [] ∧ res.world.commits = emptyWorld.commits :=
  ⟨by decide, rfl,
    copyCSVRows_ignoreErrors listSink emptyWorld
      ⟨[Raw.record ["1", "a"], Raw.record ["2"], Raw.record ["bad", "b"],
        Raw.record ["4", "d"]], 2⟩ "," ["id", "name"] ',' (by decide) rfl (by decide)⟩

/-- The fuel `copyCSVRows` gives its loop is enough: the loop returns or panics. -/
theorem copyLoop_fuel {σ : Type} (S : Sink σ) (ignoreErrors : Bool) (delimiter : String)
    (columns : List String) :
    ∀ (pending : List Raw) (fpr : Int) (w : World σ) (success failed : Nat),
      copyLoop S ignoreErrors delimiter columns (pending.length + 1) ⟨pending, fpr⟩ w
        success failed ≠ .outOfFuel
  | [], fpr, w, success, failed => by
      rw [copyLoop_EOF S ignoreErrors delimiter columns _ _ _ w success failed []
        (Read_nil fpr)]
      simp
  | x :: rest, fpr, w, success, failed => by
      rcases h1 : (Reader.mk (x :: rest) fpr).Read.1 with ⟨record, e⟩
      have hrd := Read_eq_of_fst x rest fpr record e h1
      rw [List.length_cons]
      cases e with
      | some err =>
          have hne : err ≠ GoError.EOF := by
            intro h0
            have := Read_cons_ne_EOF x rest fpr
            rw [h1, h0] at this
            exact this rfl
          rw [copyLoop_read_error S ignoreErrors delimiter columns _ _ _ w success failed
            record err hrd hne]
          cases ignoreErrors with
          | true => simpa using copyLoop_fuel S true delimiter columns rest _ _ _ _
          | false => simp
      | none =>
          cases hc : makeCols columns record with
          | none =>
              rw [copyLoop_panic S ignoreErrors delimiter columns _ _ _ w success failed
                record hrd hc]
              simp
          | some cols =>
              cases ha : (S.AddRow w.db cols).2 with
              | none =>
                  rw [copyLoop_accepted S ignoreErrors delimiter columns _ _ _ w success
                    failed record cols hrd hc ha]
                  exact copyLoop_fuel S ignoreErrors delimiter columns rest _ _ _ _
              | some err =>
                  rw [copyLoop_rejected S ignoreErrors delimiter columns _ _ _ w success
                    failed record cols err hrd hc ha]
                  cases ignoreErrors with
                  | true => simpa using copyLoop_fuel S true delimiter columns rest _ _ _ _
                  | false => simp

/-! ## The import run -/

/-- The copy loop calls no `Commit`. -/
theorem copyLoop_commits {σ : Type} (S : Sink σ) (ignoreErrors : Bool) (delimiter : String)
    (columns : List String) :
    ∀ (fuel : Nat) (reader : Reader) (w : World σ) (success failed : Nat)
      (res : CopyResult σ),
      copyLoop S ignoreErrors delimiter columns fuel reader w success failed = .returned res →
      res.world.commits = w.commits
  | 0, _, _, _, _, _, h => by simp [copyLoop] at h
  | fuel + 1, reader, w, success, failed, res, h => by
      rcases hrd : reader.Read with ⟨⟨record, e⟩, r2⟩
      cases e with
      | some err =>
          by_cases he : err = GoError.EOF
          · subst he
            rw [copyLoop_EOF S ignoreErrors delimiter columns fuel reader r2 w success failed
              record hrd] at h
            simp only [Exec.returned.injEq] at h
            rw [← h]
          · rw [copyLoop_read_error S ignoreErrors delimiter columns fuel reader r2 w success
              failed record err hrd he] at h
            cases ignoreErrors with
            | true =>
                simp only [if_true] at h
                have h2 := copyLoop_commits S true delimiter columns fuel _ _ _ _ res h
                exact h2
            | false =>
                simp only [Bool.false_eq_true, if_false, Exec.returned.injEq] at h
                rw [← h]
      | none =>
          cases hc : makeCols columns record with
          | none =>
              rw [copyLoop_panic S ignoreErrors delimiter columns fuel reader r2 w success
                failed record hrd hc] at h
              simp at h
          | some cols =>
              cases ha : (S.AddRow w.db cols).2 with
              | none =>
                  rw [copyLoop_accepted S ignoreErrors delimiter columns fuel reader r2 w
                    success failed record cols hrd hc ha] at h
                  have h2 := copyLoop_commits S ignoreErrors delimiter columns fuel _ _ _ _ res h
                  exact h2
              | some err =>
                  rw [copyLoop_rejected S ignoreErrors delimiter columns fuel reader r2 w
                    success failed record cols err hrd hc ha] at h
                  cases ignoreErrors with
                  | true =>
                      simp only [if_true] at h
                      have h2 := copyLoop_commits S true delimiter columns fuel _ _ _ _ res h
                      exact h2
                  | false =>
                      simp only [Bool.false_eq_true, if_false, Exec.returned.injEq] at h
                      rw [← h]

/-- C4: `ImportCSV` calls `Commit` exactly once when the row loop returns no error
(also when failures were tolerated under `ignoreErrors`), on the state the loop left,
and returns the result of `Commit`; when column parsing, the preparation of the import
or the row loop returns an error, `ImportCSV` returns an error and calls no `Commit`. -/
theorem ImportCSV_commit {σ : Type} (S : Sink σ) (tbl : Char → Char) (env : Nat → Env)
    (input : List Raw) (w : World σ) (schema tableName : String)
    (ignoreErrors skipHeader : Bool) (fields delimiter : String) :
    (∀ cols err r, parseColumns tbl env ⟨input, 0⟩ skipHeader fields = ((cols, some err), r) →
      ∃ e w2, ImportCSV S tbl env input w schema tableName ignoreErrors skipHeader fields
          delimiter = .returned (some e, w2) ∧ w2.commits = w.commits) ∧
    (∀ cols r, parseColumns tbl env ⟨input, 0⟩ skipHeader fields = ((cols, none), r) →
      (∀ err, (S.NewCSVImport w.db schema tableName cols).2 = some err →
        ∃ e w2, ImportCSV S tbl env input w schema tableName ignoreErrors skipHeader fields
            delimiter = .returned (some e, w2) ∧ w2.commits = w.commits) ∧
      ((S.NewCSVImport w.db schema tableName cols).2 = none →
        ∀ res, copyCSVRows S { w with db := (S.NewCSVImport w.db schema tableName cols).1 }
            { r with FieldsPerRecord := cols.length } ignoreErrors delimiter cols =
              .returned res →
          (∀ err, res.err = some err →
            ∃ e w2, ImportCSV S tbl env input w schema tableName ignoreErrors skipHeader
                fields delimiter = .returned (some e, w2) ∧ w2.commits = w.commits) ∧
          (res.err = none →
            ∃ w2, ImportCSV S tbl env input w schema tableName ignoreErrors skipHeader
                fields delimiter = .returned ((S.Commit res.world.db).2, w2) ∧
              w2.commits = w.commits + 1 ∧ w2.db = (S.Commit res.world.db).1 ∧
              w2.addRowCalls = res.world.addRowCalls))) := by
  refine ⟨?_, ?_⟩
  · intro cols err r hp
    exact ⟨.parseColumnsFailed err, w, by simp [ImportCSV, hp], rfl⟩
  · intro cols r hp
    refine ⟨?_, ?_⟩
    · intro err hn
      exact ⟨.prepareFailed err, { w with db := (S.NewCSVImport w.db schema tableName cols).1 },
        by simp [ImportCSV, hp, hn], rfl⟩
    · intro hn res hcopy
      have hcom : res.world.commits = w.commits := by
        have h2 := copyLoop_commits S ignoreErrors delimiter cols _ _ _ _ _ res hcopy
        exact h2
      refine ⟨?_, ?_⟩
      · intro err he
        exact ⟨.copyFailed
            (if !skipHeader then res.success + res.failed + 1 else res.success + res.failed) err,
          res.world, by simp [ImportCSV, hp, hn, hcopy, he], hcom⟩
      · intro he
        refine ⟨{ res.world with
            db := (S.Commit res.world.db).1, commits := res.world.commits + 1,
            stdout := if ignoreErrors && decide (res.failed > 0) then
              res.world.stdout ++
                [toString res.success ++ " rows imported into " ++ schema ++ "." ++ tableName] ++
                [toString res.failed ++ " rows could not be imported into " ++ schema ++ "."
                  ++ tableName ++ " and have been written to stderr."]
              else res.world.stdout ++
                [toString res.success ++ " rows imported into " ++ schema ++ "." ++ tableName] },
          ?_, ?_, rfl, rfl⟩
        · simp [ImportCSV, hp, hn, hcopy, he]
        · simp [hcom]

/-- C4, at four runs: an empty source (column parsing fails), a sink that refuses
the import, a short record without `ignoreErrors` (the row loop fails), and the same
source with `ignoreErrors` (the failure is tolerated and `Commit` is called once). -/
theorem ImportCSV_commit_witness :
    (∃ e w2, ImportCSV listSink id (fun _ => Env.default) [] emptyWorld "s" "t" false false
        "" "," = .returned (some e, w2) ∧ w2.commits = emptyWorld.commits) ∧
    (∃ e w2, ImportCSV refusingSink id (fun _ => Env.default) shortRecordInput emptyWorld
        "s" "t" false false "" "," = .returned (some e, w2) ∧
      w2.commits = emptyWorld.commits) ∧
    (∃ e w2, ImportCSV listSink id (fun _ => Env.default) shortRecordInput emptyWorld
        "s" "t" false false "" "," = .returned (some e, w2) ∧
      w2.commits = emptyWorld.commits) ∧
    (∃ w2, ImportCSV listSink id (fun _ => Env.default) shortRecordInput emptyWorld
        "s" "t" true false "" "," =
          .returned ((listSink.Commit [[some "1", some "Alice"], [some "2", some "Bob"]]).2,
            w2) ∧
      w2.commits = emptyWorld.commits + 1 ∧
      w2.db = (listSink.Commit [[some "1", some "Alice"], [some "2", some "Bob"]]).1 ∧
      w2.addRowCalls =
        [([some "1", some "Alice"], none), ([some "2", some "Bob"], none)]) :=
  ⟨(ImportCSV_commit listSink id (fun _ => Env.default) [] emptyWorld "s" "t" false false
      "" ",").1 [] GoError.EOF ⟨[], 0⟩ rfl,
    ((ImportCSV_commit refusingSink id (fun _ => Env.default) shortRecordInput emptyWorld
      "s" "t" false false "" ",").2 ["id", "name"]
      ⟨[Raw.record ["1", "Alice"], Raw.record ["2"], Raw.record ["2", "Bob"]], 2⟩
      (by decide)).1 (GoError.sink "no such schema") rfl,
    (((ImportCSV_commit listSink id (fun _ => Env.default) shortRecordInput emptyWorld
      "s" "t" false false "" ",").2 ["id", "name"]
      ⟨[Raw.record ["1", "Alice"], Raw.record ["2"], Raw.record ["2", "Bob"]], 2⟩
      (by decide)).2 rfl
      ⟨some (GoError.row GoError.fieldCount "2"), 1, 1, ⟨[Raw.record ["2", "Bob"]], 2⟩,
        ⟨[[some "1", some "Alice"]], [([some "1", some "Alice"], none)], 0, [], []⟩⟩
      rfl).1 (GoError.row GoError.fieldCount "2") rfl,
    (((ImportCSV_commit listSink id (fun _ => Env.default) shortRecordInput emptyWorld
      "s" "t" true false "" ",").2 ["id", "name"]
      ⟨[Raw.record ["1", "Alice"], Raw.record ["2"], Raw.record ["2", "Bob"]], 2⟩
      (by decide)).2 rfl
      ⟨none, 2, 1, ⟨[], 2⟩,
        ⟨[[some "1", some "Alice"], [some "2", some "Bob"]],
          [([some "1", some "Alice"], none), ([some "2", some "Bob"], none)], 0, ["2"], []⟩⟩
      rfl).2 rfl⟩

/-- The line number `ImportCSV` reports when the row loop fails: the number of
records the loop handled, plus one exactly when `skipHeader` is not set. -/
theorem ImportCSV_reported_line {σ : Type} (S : Sink σ) (tbl : Char → Char)
    (env : Nat → Env) (input : List Raw) (w : World σ) (schema tableName : String)
    (ignoreErrors skipHeader : Bool) (fields delimiter : String) (cols : List String)
    (r : Reader) (res : CopyResult σ) (err : GoError)
    (hp : parseColumns tbl env ⟨input, 0⟩ skipHeader fields = ((cols, none), r))
    (hn : (S.NewCSVImport w.db schema tableName cols).2 = none)
    (hcopy : copyCSVRows S { w with db := (S.NewCSVImport w.db schema tableName cols).1 }
      { r with FieldsPerRecord := cols.length } ignoreErrors delimiter cols = .returned res)
    (he : res.err = some err) :
    ImportCSV S tbl env input w schema tableName ignoreErrors skipHeader fields delimiter =
      .returned (some (.copyFailed
        (res.success + res.failed + (if skipHeader then 0 else 1)) err), res.world) := by
  cases skipHeader <;> simp [ImportCSV, hp, hn, hcopy, he]

/-- C5 fails on the code: the line number of the error is the number of records the
row loop handled, plus one exactly when `skipHeader` is not set, whatever the number
of header records consumed.  In each of the three runs below the first data record
is one field short (`k = 1`).  With explicit fields and `skipHeader` one header record
is consumed (`k + M = 2`) and the error names line `1`; with explicit fields and no
`skipHeader` none is consumed (`k + M = 1`) and the error names line `2`; with the
header as column names and `skipHeader` one is consumed (`k + M = 2`) and the error
names line `1`. -/
theorem ImportCSV_line_number_ignores_header :
    ((parseColumns id (fun _ => Env.default)
        ⟨[Raw.record ["x", "y"], Raw.record ["1"]], 0⟩ true "a,b").2.pending =
        [Raw.record ["1"]] ∧
      ImportCSV listSink id (fun _ => Env.default) [Raw.record ["x", "y"], Raw.record ["1"]]
        emptyWorld "s" "t" false true "a,b" "," =
        .returned (some (.copyFailed 1 (.row .fieldCount "1")), emptyWorld)) ∧
    ((parseColumns id (fun _ => Env.default) ⟨[Raw.record ["1"]], 0⟩ false "a,b").2.pending =
        [Raw.record ["1"]] ∧
      ImportCSV listSink id (fun _ => Env.default) [Raw.record ["1"]]
        emptyWorld "s" "t" false false "a,b" "," =
        .returned (some (.copyFailed 2 (.row .fieldCount "1")), emptyWorld)) ∧
    ((parseColumns id (fun _ => Env.default)
        ⟨[Raw.record ["a", "b"], Raw.record ["1"]], 0⟩ true "").2.pending =
        [Raw.record ["1"]] ∧
      ImportCSV listSink id (fun _ => Env.default) [Raw.record ["a", "b"], Raw.record ["1"]]
        emptyWorld "s" "t" false true "" "," =
        .returned (some (.copyFailed 1 (.row .fieldCount "1")), emptyWorld)) := by
  refine ⟨⟨by decide, rfl⟩, ⟨by decide, rfl⟩, ⟨by decide, rfl⟩⟩

/-! ## The sanitizer as a single pass -/

/-- The replacement loop, over entries with distinct keys whose texts hold no key,
maps every character on its own: a key to its text, any other character to itself. -/
theorem applyReplacements_flatMap :
    ∀ (order : List (Char × String)) (f : Char → List Char) (str : String),
      (order.map Prod.fst).Nodup →
      (∀ p ∈ order, ∀ q ∈ order, p.1 ∉ q.2.data) →
      (∀ c v, (c, v) ∈ order → f c = v.data) →
      (∀ c, c ∉ order.map Prod.fst → f c = [c]) →
      (applyReplacements order str).data = str.data.flatMap f
  | [], f, str, _, _, _, hid => by
      have hf : f = fun c => [c] := funext fun c => hid c (by simp)
      rw [applyReplacements, hf]
      simp
  | (k, v) :: rest, f, str, hnd, hcl, hkey, hid => by
      have hnd2 : k ∉ rest.map Prod.fst ∧ (rest.map Prod.fst).Nodup := by
        simpa using hnd
      have hstep := applyReplacements_flatMap rest (fun c => if c = k then [c] else f c)
        (stringsReplace str k v) hnd2.2
        (fun p hp q hq => hcl p (List.mem_cons_of_mem _ hp) q (List.mem_cons_of_mem _ hq))
        (fun c w hcw => by
          have hck : c ≠ k := by
            intro h0
            apply hnd2.1
            rw [← h0]
            exact List.mem_map_of_mem Prod.fst hcw
          simp only [if_neg hck]
          exact hkey c w (List.mem_cons_of_mem _ hcw))
        (fun c hc => by
          by_cases hck : c = k
          · simp [hck]
          · simp only [if_neg hck]
            apply hid
            simp only [List.map_cons, List.mem_cons, not_or]
            exact ⟨hck, hc⟩)
      rw [applyReplacements, hstep]
      simp only [stringsReplace, List.flatMap_assoc]
      apply List.flatMap_congr
      intro c _
      by_cases hck : c = k
      · subst hck
        simp only [if_true]
        rw [hkey c v (List.mem_cons_self _ _)]
        have hv : ∀ d ∈ v.data, (if d = c then [d] else f d) = [d] := by
          intro d hd
          by_cases hdc : d = c
          · simp [hdc]
          · simp only [if_neg hdc]
            apply hid
            intro hmem
            obtain ⟨p, hp, hpd⟩ := List.mem_map.1 hmem
            exact hcl p hp (c, v) (List.mem_cons_self _ _) (by rw [hpd]; exact hd)
        have hmap : v.data.flatMap (fun d => if d = c then [d] else f d) =
            v.data.flatMap (fun d => [d]) := List.flatMap_congr hv
        rw [hmap]
        simp
      · simp [hck]

/-- The facts about the table of `postgresify` that the single pass rests on. -/
theorem replacements_facts :
    (replacements.map Prod.fst).Nodup ∧
    (∀ p ∈ replacements, ∀ q ∈ replacements, p.1 ∉ q.2.data) ∧
    (∀ p ∈ replacements,
      (if p.1 ∈ " /.:;|-,#".data then ['_']
        else if p.1 ∈ "[]\x7b\x7d()?!$%*\"".data then [] else [p.1]) = p.2.data) ∧
    replacements.map Prod.fst = " /.:;|-,#".data ++ "[]\x7b\x7d()?!$%*\"".data := by
  decide

/-- In every order that visits each entry once, the replacement loop is the single
pass of the reference. -/
theorem applyReplacements_reference (order : List (Char × String))
    (horder : order.Perm replacements) (str : String) :
    (applyReplacements order str).data =
      str.data.flatMap (fun c =>
        if c ∈ " /.:;|-,#".data then ['_']
        else if c ∈ "[]\x7b\x7d()?!$%*\"".data then []
        else [c]) := by
  obtain ⟨hnd, hcl, hval, hkeys⟩ := replacements_facts
  apply applyReplacements_flatMap
  · exact ((horder.map Prod.fst).nodup_iff).2 hnd
  · intro p hp q hq
    exact hcl p (horder.mem_iff.1 hp) q (horder.mem_iff.1 hq)
  · intro c v hcv
    exact hval (c, v) (horder.mem_iff.1 hcv)
  · intro c hc
    have hc2 : c ∉ replacements.map Prod.fst := fun h => hc ((horder.map Prod.fst).mem_iff.2 h)
    rw [hkeys, List.mem_append, not_or] at hc2
    rw [if_neg hc2.1, if_neg hc2.2]

theorem postgresify_reference_of_perm (tbl : Char → Char) (e : Env) (identifier : String)
    (horder : e.rangeOrder.Perm replacements) :
    postgresify tbl e identifier = postgresifyReference tbl e.randIntn identifier := by
  have hdata := applyReplacements_reference e.rangeOrder horder
    (stringsTrimSpace (stringsToLower tbl identifier))
  have hmk : ∀ (t : String) (l : List Char), t.data = l → t = String.mk l := by
    intro t l h
    cases t
    simp only at h
    rw [h]
  rcases postgresify_cases tbl e identifier with ⟨h0, hp⟩ | ⟨c, rest, h0, hd, hp⟩ |
    ⟨c, rest, h0, hd, hp⟩
  · rw [hp]
    simp only [postgresifyReference]
    rw [← hdata, h0]
  · rw [hp]
    simp only [postgresifyReference]
    rw [← hdata, h0]
    simp only
    rw [if_pos ((isDigit_iff_mem c).1 hd), ← hmk _ _ h0]
  · rw [hp]
    simp only [postgresifyReference]
    rw [← hdata, h0]
    simp only
    have hnd : c ∉ "0123456789".data := by
      intro hmem
      rw [(isDigit_iff_mem c).2 hmem] at hd
      exact absurd hd (by decide)
    rw [if_neg hnd, ← hmk _ _ h0]

/-- C12: for every input, in every environment a run can supply, `postgresify` equals
the single-pass reference (lower-case and trim, map each character, `_col` and a
number below 10000 for an empty result, an underscore in front of a leading digit),
and the result does not depend on the order in which the table is visited. -/
theorem postgresify_eq_reference (tbl : Char → Char) (e : Env) (identifier : String)
    (hvalid : e.Valid) :
    postgresify tbl e identifier = postgresifyReference tbl e.randIntn identifier ∧
    e.randIntn < 10000 ∧
    ∀ e2 : Env, e2.rangeOrder.Perm replacements → e2.randIntn = e.randIntn →
      postgresify tbl e2 identifier = postgresify tbl e identifier := by
  refine ⟨postgresify_reference_of_perm tbl e identifier hvalid.1, hvalid.2, ?_⟩
  intro e2 h2 hn
  rw [postgresify_reference_of_perm tbl e2 identifier h2,
    postgresify_reference_of_perm tbl e identifier hvalid.1, hn]

/-- C12, at the examples of the specification: `A B` gives `a_b` and `C/D` gives
`c_d`, for the table visited in reverse order as in source order. -/
theorem postgresify_eq_reference_witness :
    (Env.mk replacements.reverse 7).Valid ∧
    postgresifyReference id 7 "A B" = "a_b" ∧ postgresifyReference id 7 "C/D" = "c_d" ∧
    (postgresify id ⟨replacements.reverse, 7⟩ "A B" = postgresifyReference id 7 "A B" ∧
      (7 : Nat) < 10000 ∧
      ∀ e2 : Env, e2.rangeOrder.Perm replacements → e2.randIntn = 7 →
        postgresify id e2 "A B" = postgresify id ⟨replacements.reverse, 7⟩ "A B") ∧
    (postgresify id ⟨replacements.reverse, 7⟩ "C/D" = postgresifyReference id 7 "C/D" ∧
      (7 : Nat) < 10000 ∧
      ∀ e2 : Env, e2.rangeOrder.Perm replacements → e2.randIntn = 7 →
        postgresify id e2 "C/D" = postgresify id ⟨replacements.reverse, 7⟩ "C/D") :=
  ⟨⟨List.reverse_perm _, by decide⟩, by decide, by decide,
    postgresify_eq_reference id ⟨replacements.reverse, 7⟩ "A B"
      ⟨List.reverse_perm _, by decide⟩,
    postgresify_eq_reference id ⟨replacements.reverse, 7⟩ "C/D"
      ⟨List.reverse_perm _, by decide⟩⟩

/-- C11 fails on the code: `postgresify` leaves `+` (like every character outside its
table) where it is, so `a+b` comes back unchanged and `+1` keeps `+` as its first
character; neither result is a valid PostgreSQL identifier. -/
theorem postgresify_invalid_identifier :
    postgresify id Env.default "a+b" = "a+b" ∧
    validIdentifier (postgresify id Env.default "a+b") = false ∧
    postgresify id Env.default "+1" = "+1" ∧
    validIdentifier (postgresify id Env.default "+1") = false := by
  decide

/-! ## Identifiers that are already valid -/

/-- A lower-case ASCII letter, a digit or an underscore is kept by the lower-casing,
is no white space and is no key of the table. -/
theorem plain_char_facts (tbl : Char → Char) (c : Char)
    (h : c.isLower = true ∨ c.isDigit = true ∨ c = '_') :
    unicodeToLower tbl c = c ∧ unicodeIsSpace c = false ∧
    c ∉ " /.:;|-,#".data ∧ c ∉ "[]\x7b\x7d()?!$%*\"".data := by
  have hc : c = Char.ofNat c.toNat := by simp
  rcases h with h | h | h
  · have h1 : 97 ≤ c.toNat ∧ c.toNat ≤ 122 := by
      simpa [Char.isLower, Char.toNat, UInt32.le_def, Fin.le_def] using h
    obtain ⟨h3, h4⟩ := h1
    rw [hc]
    generalize c.toNat = n at h3 h4
    interval_cases n <;> exact ⟨rfl, rfl, by decide, by decide⟩
  · have h1 : 48 ≤ c.toNat ∧ c.toNat ≤ 57 := by
      simpa [Char.isDigit, Char.toNat, UInt32.le_def, Fin.le_def] using h
    obtain ⟨h3, h4⟩ := h1
    rw [hc]
    generalize c.toNat = n at h3 h4
    interval_cases n <;> exact ⟨rfl, rfl, by decide, by decide⟩
  · subst h
    exact ⟨rfl, rfl, by decide, by decide⟩

theorem dropWhile_of_head (p : Char → Bool) (l : List Char)
    (h : ∀ c rest, l = c :: rest → p c = false) : l.dropWhile p = l := by
  cases l with
  | nil => rfl
  | cons c rest => simp [List.dropWhile, h c rest rfl]

/-- C18: every string made only of lower-case ASCII letters, digits and underscores
whose first character is a letter or an underscore is returned unchanged by
`postgresify`, whatever the order in which the table is visited. -/
theorem postgresify_fixed_point (tbl : Char → Char) (e : Env) (identifier : String)
    (horder : e.rangeOrder.Perm replacements)
    (hchars : ∀ c ∈ identifier.data, c.isLower = true ∨ c.isDigit = true ∨ c = '_')
    (hfirst : ∃ c rest, identifier.data = c :: rest ∧ (c.isLower = true ∨ c = '_')) :
    postgresify tbl e identifier = identifier := by
  have hlower : stringsToLower tbl identifier = identifier := by
    cases identifier with
    | mk data =>
        simp only [stringsToLower]
        have : ∀ c ∈ data, unicodeToLower tbl c = id c := fun c hc =>
          (plain_char_facts tbl c (hchars c hc)).1
        rw [List.map_congr_left this, List.map_id]
  have hspace : ∀ c ∈ identifier.data, unicodeIsSpace c = false := fun c hc =>
    (plain_char_facts tbl c (hchars c hc)).2.1
  have htrim : stringsTrimSpace identifier = identifier := by
    cases identifier with
    | mk data =>
        simp only [stringsTrimSpace]
        rw [dropWhile_of_head unicodeIsSpace data
          (fun c rest h => hspace c (by rw [h]; exact List.mem_cons_self _ _))]
        rw [dropWhile_of_head unicodeIsSpace data.reverse
          (fun c rest h => hspace c (by
            have : c ∈ data.reverse := by rw [h]; exact List.mem_cons_self _ _
            simpa using this))]
        rw [List.reverse_reverse]
  have hdata : (applyReplacements e.rangeOrder identifier).data = identifier.data := by
    rw [applyReplacements_reference e.rangeOrder horder identifier]
    have hid : ∀ c ∈ identifier.data,
        (if c ∈ " /.:;|-,#".data then ['_']
          else if c ∈ "[]\x7b\x7d()?!$%*\"".data then [] else [c]) = [c] := by
      intro c hc
      obtain ⟨_, _, h1, h2⟩ := plain_char_facts tbl c (hchars c hc)
      rw [if_neg h1, if_neg h2]
    rw [List.flatMap_congr hid]
    simp
  have hstr : applyReplacements e.rangeOrder identifier = identifier := by
    cases hres : applyReplacements e.rangeOrder identifier with
    | mk d =>
        rw [hres] at hdata
        simp only at hdata
        rw [hdata]
  obtain ⟨c, rest, hcons, hc⟩ := hfirst
  rcases postgresify_cases tbl e identifier with ⟨h0, _⟩ | ⟨c2, rest2, h0, hd, _⟩ |
    ⟨c2, rest2, h0, hd, hp⟩
  · rw [hlower, htrim, hstr, hcons] at h0
    exact absurd h0 (by simp)
  · rw [hlower, htrim, hstr, hcons] at h0
    simp only [List.cons.injEq] at h0
    obtain ⟨h1, _⟩ := h0
    subst h1
    rcases hc with hc | hc
    · have h1 : 97 ≤ c.toNat ∧ c.toNat ≤ 122 := by
        simpa [Char.isLower, Char.toNat, UInt32.le_def, Fin.le_def] using hc
      have h2 : 48 ≤ c.toNat ∧ c.toNat ≤ 57 := by
        simpa [Char.isDigit, Char.toNat, UInt32.le_def, Fin.le_def] using hd
      omega
    · subst hc
      exact absurd hd (by decide)
  · rw [hp, hlower, htrim, hstr]

/-- C18, at an input: `_col_9a` is returned unchanged. -/
theorem postgresify_fixed_point_witness :
    postgresify id Env.default "_col_9a" = "_col_9a" :=
  postgresify_fixed_point id Env.default "_col_9a" (List.Perm.refl _)
    (by decide) ⟨'_', "col_9a".data, rfl, Or.inr rfl⟩

/-! ## Connection string and table creation -/

/-- C19: for all arguments, `ParseConnStr` returns exactly the string
`user=<user> dbname=<dbname> password='<password>' host=<host> port=<port>
sslmode=<m> connect_timeout=5`, where `m` is `require` when `useSsl` is true and
`disable` when it is false. -/
theorem ParseConnStr_eq (user dbname password host port : String) (useSsl : Bool) :
    ParseConnStr user dbname password host port useSsl =
      "user=" ++ user ++ " dbname=" ++ dbname ++ " password='" ++ password ++ "' host=" ++
        host ++ " port=" ++ port ++ " sslmode=" ++ (if useSsl then "require" else "disable")
        ++ " connect_timeout=5" := by
  have h1 : " " ++ "sslmode=disable connect_timeout=5" =
      " sslmode=" ++ ("disable" ++ " connect_timeout=5") := by decide
  have h2 : " " ++ "sslmode=require connect_timeout=5" =
      " sslmode=" ++ ("require" ++ " connect_timeout=5") := by decide
  cases useSsl
  · simp only [ParseConnStr, Bool.false_eq_true, if_false, String.append_assoc, h1]
  · simp only [ParseConnStr, if_true, String.append_assoc, h2]

theorem fillColumnTypes_eq : ∀ (columns : List String) (columnTypes : List String) (i : Nat),
    i + columns.length ≤ columnTypes.length →
    fillColumnTypes columnTypes i columns =
      columnTypes.take i ++ columns.map (fun col => col ++ " TEXT") ++
        columnTypes.drop (i + columns.length)
  | [], columnTypes, i, _ => by
      simp [fillColumnTypes]
  | col :: rest, columnTypes, i, hi => by
      have hlt : i < columnTypes.length := by
        simp only [List.length_cons] at hi; omega
      rw [fillColumnTypes, fillColumnTypes_eq rest _ (i + 1)
        (by simp only [List.length_set, List.length_cons] at hi ⊢; omega)]
      have h1 : i + 1 + rest.length = i + (col :: rest).length := by
        simp only [List.length_cons]; omega
      have hd : List.drop (i + (col :: rest).length) (columnTypes.set i (col ++ " TEXT")) =
          columnTypes.drop (i + (col :: rest).length) :=
        List.drop_set_of_lt _ _ (by simp only [List.length_cons]; omega)
      have ht : List.take (i + 1) (columnTypes.set i (col ++ " TEXT")) =
          columnTypes.take i ++ [col ++ " TEXT"] := by
        rw [List.set_eq_take_append_cons_drop, if_pos hlt, List.take_append_eq_append_take]
        have hl : (List.take i columnTypes).length = i := by
          rw [List.length_take]; omega
        simp [hl]
      rw [h1, hd, ht]
      simp

/-- The command `createTable` builds. -/
theorem createTable_command (schema tableName : String) (columns : List String) :
    "CREATE TABLE IF NOT EXISTS " ++ (schema ++ "." ++ tableName) ++ " (" ++
        stringsJoin (fillColumnTypes (List.replicate columns.length "") 0 columns) ", " ++ ")" =
      "CREATE TABLE IF NOT EXISTS " ++ schema ++ "." ++ tableName ++ " (" ++
        ", ".intercalate (columns.map (fun col => col ++ " TEXT")) ++ ")" := by
  rw [fillColumnTypes_eq columns _ 0 (by simp)]
  simp [stringsJoin, String.append_assoc]

/-- C13: for every schema, table name and column list, `createTable` prepares exactly
the statement `CREATE TABLE IF NOT EXISTS <schema>.<table> (<c1> TEXT, <c2> TEXT, ...)`
with one `<col> TEXT` entry per column, in column order, separated by `, `; it
returns an error exactly when preparing that statement fails (the error of `Prepare`
wrapped with the command, and no statement), and the prepared statement and no error
otherwise. -/
theorem createTable_prepares (Stmt : Type) (db : DB Stmt) (schema tableName : String)
    (columns : List String) :
    (createTable db schema tableName columns).prepared =
      ["CREATE TABLE IF NOT EXISTS " ++ schema ++ "." ++ tableName ++ " (" ++
        ", ".intercalate (columns.map (fun col => col ++ " TEXT")) ++ ")"] ∧
    ((createTable db schema tableName columns).err ≠ none ↔
      (db.Prepare ("CREATE TABLE IF NOT EXISTS " ++ schema ++ "." ++ tableName ++ " (" ++
        ", ".intercalate (columns.map (fun col => col ++ " TEXT")) ++ ")")).2 ≠ none) ∧
    (createTable db schema tableName columns).err =
      (db.Prepare ("CREATE TABLE IF NOT EXISTS " ++ schema ++ "." ++ tableName ++ " (" ++
        ", ".intercalate (columns.map (fun col => col ++ " TEXT")) ++ ")")).2.map
        (fun e => ⟨"CREATE TABLE IF NOT EXISTS " ++ schema ++ "." ++ tableName ++ " (" ++
          ", ".intercalate (columns.map (fun col => col ++ " TEXT")) ++ ")", some e⟩) ∧
    (createTable db schema tableName columns).statement =
      (if (db.Prepare ("CREATE TABLE IF NOT EXISTS " ++ schema ++ "." ++ tableName ++ " (" ++
        ", ".intercalate (columns.map (fun col => col ++ " TEXT")) ++ ")")).2 = none
       then (db.Prepare ("CREATE TABLE IF NOT EXISTS " ++ schema ++ "." ++ tableName ++ " (" ++
        ", ".intercalate (columns.map (fun col => col ++ " TEXT")) ++ ")")).1
       else none) := by
  have hcmd := createTable_command schema tableName columns
  simp only [createTable]
  rw [hcmd]
  rcases hprep : db.Prepare ("CREATE TABLE IF NOT EXISTS " ++ schema ++ "." ++ tableName ++
      " (" ++ ", ".intercalate (columns.map (fun col => col ++ " TEXT")) ++ ")")
    with ⟨statement, _ | err⟩
  · simp
  · simp

/-- C14 fails on the code: `createJSONTable` returns the error of postgres.go:108 on
every call, built around the error of `Prepare` even when that is `nil`.  With a
database that prepares the command without error it returns the prepared statement
together with the error whose text ends in `Error: <nil>`. -/
theorem createJSONTable_error_on_success :
    (acceptingDB.Prepare "CREATE TABLE IF NOT EXISTS import.docs (data JSON)").2 = none ∧
    (createJSONTable acceptingDB "import" "docs" "data" "JSON").prepared =
      ["CREATE TABLE IF NOT EXISTS import.docs (data JSON)"] ∧
    (createJSONTable acceptingDB "import" "docs" "data" "JSON").statement =
      some "CREATE TABLE IF NOT EXISTS import.docs (data JSON)" ∧
    (createJSONTable acceptingDB "import" "docs" "data" "JSON").err =
      some ⟨"CREATE TABLE IF NOT EXISTS import.docs (data JSON)", none⟩ ∧
    ((createJSONTable acceptingDB "import" "docs" "data" "JSON").err.map
        CreateTableError.Error) =
      some ("Couldn't create table with command: " ++
        "CREATE TABLE IF NOT EXISTS import.docs (data JSON)  Error: <nil>") ∧
    (createTable acceptingDB "import" "docs" ["data"]).err = none := by
  decide

/-- C13, at an input: the statement prepared for the columns `id` and `name` of
`import.people`. -/
theorem createTable_example :
    (createTable acceptingDB "import" "people" ["id", "name"]).prepared =
      ["CREATE TABLE IF NOT EXISTS import.people (id TEXT, name TEXT)"] ∧
    (createTable acceptingDB "import" "people" ["id", "name"]).err = none ∧
    (createTable refusingDB "import" "people" ["id", "name"]).statement = none ∧
    (createTable refusingDB "import" "people" ["id", "name"]).err =
      some ⟨"CREATE TABLE IF NOT EXISTS import.people (id TEXT, name TEXT)",
        some (.sink "syntax error")⟩ := by
  decide

/-! ## Rows and the diagnostic stream -/

/-- Called directly on a reader that is not set up as `ImportCSV` sets it up, the
loop on csv.go:77-79 can meet a record with more fields than there are columns; it
then assigns `cols[i]` at an index outside `cols` and the run panics before `AddRow`
is called.  No run of `ImportCSV` hands such a reader to `copyCSVRows`. -/
theorem copyCSVRows_direct_call_panics :
    (Reader.mk [Raw.record ["1", "Alice", "x"]] 0).Read.1 = (["1", "Alice", "x"], none) ∧
    makeCols ["id", "name"] ["1", "Alice", "x"] = none ∧
    copyCSVRows listSink emptyWorld ⟨[Raw.record ["1", "Alice", "x"]], 0⟩ false ","
      ["id", "name"] = Exec.indexOutOfRange := by
  refine ⟨by decide, by decide, rfl⟩

/-- When the records that decode have at most as many fields as there are columns,
the loop does not panic, and every row handed to `AddRow` is the row built for a
record that the reader returned without error. -/
theorem copyLoop_rows {σ : Type} (S : Sink σ) (ignoreErrors : Bool) (delimiter : String)
    (columns : List String) :
    ∀ (pending : List Raw) (fpr : Int) (w : World σ) (success failed : Nat),
      (∀ x ∈ readAllFrom pending fpr, x.2 = none → x.1.length ≤ columns.length) →
      copyLoop S ignoreErrors delimiter columns (pending.length + 1) ⟨pending, fpr⟩ w
          success failed ≠ .indexOutOfRange ∧
      ∀ res, copyLoop S ignoreErrors delimiter columns (pending.length + 1) ⟨pending, fpr⟩ w
          success failed = .returned res →
        ∃ calls, res.world.addRowCalls = w.addRowCalls ++ calls ∧
          ∀ c ∈ calls, ∃ x ∈ readAllFrom pending fpr,
            x.2 = none ∧ makeCols columns x.1 = some c.1
  | [], fpr, w, success, failed, _ => by
      rw [copyLoop_EOF S ignoreErrors delimiter columns _ _ _ w success failed []
        (Read_nil fpr)]
      refine ⟨by simp, ?_⟩
      intro res h
      simp only [Exec.returned.injEq] at h
      subst h
      exact ⟨[], by simp, by simp⟩
  | x :: rest, fpr, w, success, failed, hfit => by
      rcases h1 : (Reader.mk (x :: rest) fpr).Read.1 with ⟨record, e⟩
      have hrd := Read_eq_of_fst x rest fpr record e h1
      have hall : readAllFrom (x :: rest) fpr =
          (record, e) :: readAllFrom rest (Reader.mk (x :: rest) fpr).Read.2.FieldsPerRecord := by
        rw [readAllFrom, h1]
      have hfit2 : ∀ y ∈ readAllFrom rest (Reader.mk (x :: rest) fpr).Read.2.FieldsPerRecord,
          y.2 = none → y.1.length ≤ columns.length := by
        intro y hy
        apply hfit
        rw [hall]
        exact List.mem_cons_of_mem _ hy
      have hlift : ∀ (w2 : World σ) (s2 f2 : Nat) (pre : List (List Val × Option GoError)),
          w2.addRowCalls = w.addRowCalls ++ pre →
          (∀ c ∈ pre, ∃ y ∈ readAllFrom (x :: rest) fpr,
            y.2 = none ∧ makeCols columns y.1 = some c.1) →
          copyLoop S ignoreErrors delimiter columns (rest.length + 1)
              ⟨rest, (Reader.mk (x :: rest) fpr).Read.2.FieldsPerRecord⟩ w2 s2 f2 ≠
            .indexOutOfRange ∧
          ∀ res, copyLoop S ignoreErrors delimiter columns (rest.length + 1)
              ⟨rest, (Reader.mk (x :: rest) fpr).Read.2.FieldsPerRecord⟩ w2 s2 f2 =
              .returned res →
            ∃ calls, res.world.addRowCalls = w.addRowCalls ++ calls ∧
              ∀ c ∈ calls, ∃ y ∈ readAllFrom (x :: rest) fpr,
                y.2 = none ∧ makeCols columns y.1 = some c.1 := by
        intro w2 s2 f2 pre hpre hprefix
        obtain ⟨hnp, hcalls⟩ := copyLoop_rows S ignoreErrors delimiter columns rest _ w2 s2 f2
          hfit2
        refine ⟨hnp, ?_⟩
        intro res hres
        obtain ⟨calls, hlog, hmem⟩ := hcalls res hres
        refine ⟨pre ++ calls, by rw [hlog, hpre, List.append_assoc], ?_⟩
        intro c hc
        rcases List.mem_append.1 hc with hc | hc
        · exact hprefix c hc
        · obtain ⟨y, hy, hy2⟩ := hmem c hc
          exact ⟨y, by rw [hall]; exact List.mem_cons_of_mem _ hy, hy2⟩
      rw [List.length_cons]
      cases e with
      | some err =>
          have hne : err ≠ GoError.EOF := by
            intro h0
            have := Read_cons_ne_EOF x rest fpr
            rw [h1, h0] at this
            exact this rfl
          rw [copyLoop_read_error S ignoreErrors delimiter columns _ _ _ w success failed
            record err hrd hne]
          cases ignoreErrors with
          | true =>
              simp only [if_true]
              exact hlift _ _ _ [] (by simp) (by simp)
          | false =>
              simp only [Bool.false_eq_true, if_false]
              refine ⟨by simp, ?_⟩
              intro res h
              simp only [Exec.returned.injEq] at h
              subst h
              exact ⟨[], by simp, by simp⟩
      | none =>
          have hle : record.length ≤ columns.length := by
            apply hfit (record, none) _ rfl
            rw [hall]
            exact List.mem_cons_self _ _
          have hc := makeCols_of_le columns record hle
          have hhead : ∀ (r : Option GoError),
              ∀ c ∈ [(paddedRow columns record, r)], ∃ y ∈ readAllFrom (x :: rest) fpr,
                y.2 = none ∧ makeCols columns y.1 = some c.1 := by
            intro r c hcmem
            simp only [List.mem_singleton] at hcmem
            subst hcmem
            exact ⟨(record, none), by rw [hall]; exact List.mem_cons_self _ _, rfl, hc⟩
          cases ha : (S.AddRow w.db (paddedRow columns record)).2 with
          | none =>
              rw [copyLoop_accepted S ignoreErrors delimiter columns _ _ _ w success
                failed record _ hrd hc ha]
              exact hlift _ _ _ [(paddedRow columns record, none)] rfl (hhead none)
          | some err =>
              rw [copyLoop_rejected S ignoreErrors delimiter columns _ _ _ w success
                failed record _ err hrd hc ha]
              cases ignoreErrors with
              | true =>
                  simp only [if_true]
                  exact hlift _ _ _ [(paddedRow columns record, some err)] rfl
                    (hhead (some err))
              | false =>
                  simp only [Bool.false_eq_true, if_false]
                  refine ⟨by simp, ?_⟩
                  intro res h
                  simp only [Exec.returned.injEq] at h
                  subst h
                  exact ⟨[(paddedRow columns record, some err)], rfl, hhead (some err)⟩

/-- C16: in every call as `ImportCSV` makes it (the reader has
`FieldsPerRecord = len(columns)`, at least one), for every record the reader returns
without error `copyCSVRows` passes `AddRow` exactly `len(columns)` values and never
more, the fields of the record in order, and the copy loop never indexes out of range:
a record of any other length is reported by the reader as `ErrFieldCount` and is not
copied.  (A record with fewer fields than columns always gets a row of `len(columns)`
values with its fields as the leading entries.) -/
theorem copyCSVRows_rows_fit {σ : Type} (S : Sink σ) (w : World σ) (reader : Reader)
    (ignoreErrors : Bool) (delimiter : String) (columns : List String)
    (hfpr : reader.FieldsPerRecord = columns.length) (hcols : 0 < columns.length) :
    (∀ x ∈ reader.readAll, x.2 = none →
      x.1.length = columns.length ∧ makeCols columns x.1 = some (x.1.map some)) ∧
    (∀ record : List String, record.length ≤ columns.length →
      ∃ cols, makeCols columns record = some cols ∧ cols.length = columns.length ∧
        cols.take record.length = record.map some) ∧
    copyCSVRows S w reader ignoreErrors delimiter columns ≠ .indexOutOfRange ∧
    (∀ res, copyCSVRows S w reader ignoreErrors delimiter columns = .returned res →
      ∃ calls, res.world.addRowCalls = w.addRowCalls ++ calls ∧
        ∀ c ∈ calls, c.1.length = columns.length ∧
          ∃ x ∈ reader.readAll, x.2 = none ∧ c.1 = x.1.map some) := by
  have hlen : ∀ x ∈ readAllFrom reader.pending reader.FieldsPerRecord, x.2 = none →
      x.1.length = columns.length := by
    rw [hfpr]
    exact readAllFrom_configured columns.length hcols reader.pending
  have hrow : ∀ record : List String, record.length = columns.length →
      makeCols columns record = some (record.map some) := by
    intro record h
    rw [makeCols_of_le columns record (le_of_eq h)]
    simp [paddedRow, h]
  obtain ⟨hnp, hcalls⟩ := copyLoop_rows S ignoreErrors delimiter columns reader.pending
    reader.FieldsPerRecord w 0 0 (fun x hx hnone => le_of_eq (hlen x hx hnone))
  refine ⟨?_, ?_, hnp, ?_⟩
  · intro x hx hnone
    exact ⟨hlen x hx hnone, hrow x.1 (hlen x hx hnone)⟩
  · intro record h
    refine ⟨paddedRow columns record, makeCols_of_le columns record h, ?_, ?_⟩
    · simp only [paddedRow, List.length_append, List.length_map, List.length_replicate]
      omega
    · simp [paddedRow, List.take_append_eq_append_take]
  · intro res h
    obtain ⟨calls, hlog, hmem⟩ := hcalls res h
    refine ⟨calls, hlog, ?_⟩
    intro c hc
    obtain ⟨x, hx, hnone, hmk⟩ := hmem c hc
    have h1 := hrow x.1 (hlen x hx hnone)
    rw [hmk] at h1
    have h2 : c.1 = x.1.map some := Option.some.inj h1
    refine ⟨?_, x, hx, hnone, h2⟩
    rw [h2, List.length_map]
    exact hlen x hx hnone

/-- C16, at an input: a reader set up for two columns whose source holds a record of
one field and a record of three; both are reported as errors, and the only row that
reaches `AddRow` has two values. -/
theorem copyCSVRows_rows_fit_witness :
    mixedLengthReader.readAll =
      [(["1", "Alice"], none), (["2"], some GoError.fieldCount),
        (["3", "x", "y"], some GoError.fieldCount)] ∧
    copyCSVRows listSink emptyWorld mixedLengthReader true "," ["id", "name"] =
      .returned ⟨none, 1, 2, ⟨[], 2⟩,
        ⟨[[some "1", some "Alice"]], [([some "1", some "Alice"], none)], 0,
          ["2", "3,x,y"], []⟩⟩ ∧
    ((∀ x ∈ mixedLengthReader.readAll, x.2 = none →
      x.1.length = ["id", "name"].length ∧
        makeCols ["id", "name"] x.1 = some (x.1.map some)) ∧
    (∀ record : List String, record.length ≤ ["id", "name"].length →
      ∃ cols, makeCols ["id", "name"] record = some cols ∧
        cols.length = ["id", "name"].length ∧
        cols.take record.length = record.map some) ∧
    copyCSVRows listSink emptyWorld mixedLengthReader true "," ["id", "name"] ≠
      .indexOutOfRange ∧
    (∀ res, copyCSVRows listSink emptyWorld mixedLengthReader true "," ["id", "name"] =
        .returned res →
      ∃ calls, res.world.addRowCalls = emptyWorld.addRowCalls ++ calls ∧
        ∀ c ∈ calls, c.1.length = ["id", "name"].length ∧
          ∃ x ∈ mixedLengthReader.readAll, x.2 = none ∧ c.1 = x.1.map some)) :=
  ⟨by decide, rfl,
    copyCSVRows_rows_fit listSink emptyWorld mixedLengthReader true "," ["id", "name"]
      rfl (by decide)⟩

/-- No run of `ImportCSV` with at least one column panics in the copy loop: the
reader it hands to `copyCSVRows` has `FieldsPerRecord = len(columns)` (csv.go:162). -/
theorem ImportCSV_no_panic {σ : Type} (S : Sink σ) (tbl : Char → Char) (env : Nat → Env)
    (input : List Raw) (w : World σ) (schema tableName : String)
    (ignoreErrors skipHeader : Bool) (fields delimiter : String) (cols : List String)
    (r : Reader)
    (hp : parseColumns tbl env ⟨input, 0⟩ skipHeader fields = ((cols, none), r))
    (hcols : 0 < cols.length) :
    ImportCSV S tbl env input w schema tableName ignoreErrors skipHeader fields delimiter ≠
      .indexOutOfRange := by
  have hlen : ∀ x ∈ readAllFrom r.pending (cols.length : Int), x.2 = none →
      x.1.length ≤ cols.length := fun x hx hnone =>
    le_of_eq (readAllFrom_configured cols.length hcols r.pending x hx hnone)
  have hnp := (copyLoop_rows S ignoreErrors delimiter cols r.pending (cols.length : Int)
    { w with db := (S.NewCSVImport w.db schema tableName cols).1 } 0 0 hlen).1
  cases hn : (S.NewCSVImport w.db schema tableName cols).2 with
  | some err => simp [ImportCSV, hp, hn]
  | none =>
      cases hcopy : copyCSVRows S { w with db := (S.NewCSVImport w.db schema tableName cols).1 }
          { r with FieldsPerRecord := cols.length } ignoreErrors delimiter cols with
      | indexOutOfRange => exact absurd hcopy hnp
      | outOfFuel => simp [ImportCSV, hp, hn, hcopy]
      | returned res =>
          cases he : res.err with
          | some err => simp [ImportCSV, hp, hn, hcopy, he]
          | none => simp [ImportCSV, hp, hn, hcopy, he]

/-- The diagnostic stream and the failure count of the loop under `ignoreErrors`. -/
theorem copyLoop_stderr {σ : Type} (S : Sink σ) (delimiter : String)
    (columns : List String) :
    ∀ (pending : List Raw) (fpr : Int) (w : World σ) (success failed : Nat)
      (res : CopyResult σ),
      copyLoop S true delimiter columns (pending.length + 1) ⟨pending, fpr⟩ w
        success failed = .returned res →
      ∃ calls, res.world.addRowCalls = w.addRowCalls ++ calls ∧
        calls.length = ((readAllFrom pending fpr).filter (fun x => x.2.isNone)).length ∧
        res.world.stderr =
          w.stderr ++ failedLines delimiter (readAllFrom pending fpr) calls ∧
        res.failed = failed + (failedLines delimiter (readAllFrom pending fpr) calls).length
  | [], fpr, w, success, failed, res, h => by
      rw [copyLoop_EOF S true delimiter columns _ _ _ w success failed [] (Read_nil fpr)] at h
      simp only [Exec.returned.injEq] at h
      subst h
      exact ⟨[], by simp, by simp [readAllFrom], by simp [readAllFrom, failedLines],
        by simp [readAllFrom, failedLines]⟩
  | x :: rest, fpr, w, success, failed, res, h => by
      rcases h1 : (Reader.mk (x :: rest) fpr).Read.1 with ⟨record, e⟩
      have hrd := Read_eq_of_fst x rest fpr record e h1
      have hall : readAllFrom (x :: rest) fpr =
          (record, e) :: readAllFrom rest (Reader.mk (x :: rest) fpr).Read.2.FieldsPerRecord := by
        rw [readAllFrom, h1]
      rw [List.length_cons] at h
      cases e with
      | some err =>
          have hne : err ≠ GoError.EOF := by
            intro h0
            have := Read_cons_ne_EOF x rest fpr
            rw [h1, h0] at this
            exact this rfl
          rw [copyLoop_read_error S true delimiter columns _ _ _ w success failed
            record err hrd hne, if_pos rfl] at h
          obtain ⟨calls, hlog, hlen, herr, hf⟩ :=
            copyLoop_stderr S delimiter columns rest _ _ _ _ res h
          refine ⟨calls, hlog, ?_, ?_, ?_⟩
          · rw [hlen, hall]; simp
          · rw [herr, hall]; simp [failedLines]
          · rw [hf, hall]; simp [failedLines]; omega
      | none =>
          cases hc : makeCols columns record with
          | none =>
              rw [copyLoop_panic S true delimiter columns _ _ _ w success failed
                record hrd hc] at h
              simp at h
          | some cols =>
              cases ha : (S.AddRow w.db cols).2 with
              | none =>
                  rw [copyLoop_accepted S true delimiter columns _ _ _ w success
                    failed record cols hrd hc ha] at h
                  obtain ⟨calls, hlog, hlen, herr, hf⟩ :=
                    copyLoop_stderr S delimiter columns rest _ _ _ _ res h
                  refine ⟨(cols, none) :: calls, ?_, ?_, ?_, ?_⟩
                  · rw [hlog]; simp
                  · rw [hall]; simp [hlen]
                  · rw [herr, hall]; simp [failedLines]
                  · rw [hf, hall]; simp [failedLines]
              | some err =>
                  rw [copyLoop_rejected S true delimiter columns _ _ _ w success
                    failed record cols err hrd hc ha, if_pos rfl] at h
                  obtain ⟨calls, hlog, hlen, herr, hf⟩ :=
                    copyLoop_stderr S delimiter columns rest _ _ _ _ res h
                  refine ⟨(cols, some err) :: calls, ?_, ?_, ?_, ?_⟩
                  · rw [hlog]; simp
                  · rw [hall]; simp [hlen]
                  · rw [herr, hall]; simp [failedLines]
                  · rw [hf, hall]; simp [failedLines]; omega

/-- C17: with `ignoreErrors = true`, when `copyCSVRows` returns, it has written to the
diagnostic stream exactly one entry per failed record (a record whose read returned an
error, or whose `AddRow` call did), in input order, each entry the fields of the
record joined by the delimiter, and the number of entries written is the returned
failure count.  It returns whenever the records that decode fit the columns. -/
theorem copyCSVRows_stderr {σ : Type} (S : Sink σ) (w : World σ) (reader : Reader)
    (delimiter : String) (columns : List String) :
    (∀ res, copyCSVRows S w reader true delimiter columns = .returned res →
      ∃ calls, res.world.addRowCalls = w.addRowCalls ++ calls ∧
        calls.length = (reader.readAll.filter (fun x => x.2.isNone)).length ∧
        res.world.stderr = w.stderr ++ failedLines delimiter reader.readAll calls ∧
        (failedLines delimiter reader.readAll calls).length = res.failed) ∧
    ((∀ x ∈ reader.readAll, x.2 = none → x.1.length ≤ columns.length) →
      ∃ res, copyCSVRows S w reader true delimiter columns = .returned res) := by
  constructor
  · intro res h
    obtain ⟨calls, hlog, hlen, herr, hf⟩ :=
      copyLoop_stderr S delimiter columns reader.pending reader.FieldsPerRecord w 0 0 res h
    refine ⟨calls, hlog, hlen, herr, ?_⟩
    rw [hf]
    simp [Reader.readAll]
  · intro hfit
    obtain ⟨res, _, h, _⟩ :=
      copyLoop_ignoreErrors S delimiter columns reader.pending reader.FieldsPerRecord w 0 0 hfit
    exact ⟨res, h⟩

/-- C17, at an input: of four records the second is one field short and the third is
rejected by `AddRow`; the stream receives `2` and `bad,b`, in that order. -/
theorem copyCSVRows_stderr_witness :
    failedLines "," (Reader.mk [Raw.record ["1", "a"], Raw.record ["2"],
        Raw.record ["bad", "b"], Raw.record ["4", "d"]] 2).readAll
      [([some "1", some "a"], none), ([some "bad", some "b"], some (.sink "rejected")),
        ([some "4", some "d"], none)] = ["2", "bad,b"] ∧
    ∃ calls,
      (CopyResult.mk none 2 2 ⟨[], 2⟩
        ⟨[[some "1", some "a"], [some "4", some "d"]],
          [([some "1", some "a"], none), ([some "bad", some "b"], some (.sink "rejected")),
            ([some "4", some "d"], none)], 0, ["2", "bad,b"], []⟩).world.addRowCalls =
        emptyWorld.addRowCalls ++ calls ∧
      calls.length = ((Reader.mk [Raw.record ["1", "a"], Raw.record ["2"],
        Raw.record ["bad", "b"], Raw.record ["4", "d"]] 2).readAll.filter
          (fun x => x.2.isNone)).length ∧
      (CopyResult.mk none 2 2 ⟨[], 2⟩
        ⟨[[some "1", some "a"], [some "4", some "d"]],
          [([some "1", some "a"], none), ([some "bad", some "b"], some (.sink "rejected")),
            ([some "4", some "d"], none)], 0, ["2", "bad,b"], []⟩).world.stderr =
        emptyWorld.stderr ++ failedLines "," (Reader.mk [Raw.record ["1", "a"],
          Raw.record ["2"], Raw.record ["bad", "b"], Raw.record ["4", "d"]] 2).readAll calls ∧
      (failedLines "," (Reader.mk [Raw.record ["1", "a"], Raw.record ["2"],
          Raw.record ["bad", "b"], Raw.record ["4", "d"]] 2).readAll calls).length =
        (CopyResult.mk none 2 2 ⟨[], 2⟩
          ⟨[[some "1", some "a"], [some "4", some "d"]],
            [([some "1", some "a"], none), ([some "bad", some "b"], some (.sink "rejected")),
              ([some "4", some "d"], none)], 0, ["2", "bad,b"], []⟩).failed :=
  ⟨by decide,
    (copyCSVRows_stderr listSink emptyWorld
      ⟨[Raw.record ["1", "a"], Raw.record ["2"], Raw.record ["bad", "b"],
        Raw.record ["4", "d"]], 2⟩ "," ["id", "name"]).1
      ⟨none, 2, 2, ⟨[], 2⟩,
        ⟨[[some "1", some "a"], [some "4", some "d"]],
          [([some "1", some "a"], none), ([some "bad", some "b"], some (.sink "rejected")),
            ([some "4", some "d"], none)], 0, ["2", "bad,b"], []⟩⟩
      rfl⟩

/-! ## The end of the import session -/

/-- C15 as stated fails: in this run the session is opened, the first record is
inserted and the second aborts the row loop; `ImportCSV` returns the error with the
world exactly as the loop left it.  No call follows on the session: no `Commit`, and
nothing that rolls it back (the inserted row is still in the state of the sink). -/
theorem ImportCSV_abort_leaves_session :
    (listSink.NewCSVImport emptyWorld.db "s" "t" ["id", "name"]).2 = none ∧
    copyCSVRows listSink emptyWorld
        ⟨[Raw.record ["1", "Alice"], Raw.record ["2"], Raw.record ["2", "Bob"]], 2⟩
        false "," ["id", "name"] =
      .returned ⟨some (.row .fieldCount "2"), 1, 1, ⟨[Raw.record ["2", "Bob"]], 2⟩,
        ⟨[[some "1", some "Alice"]], [([some "1", some "Alice"], none)], 0, [], []⟩⟩ ∧
    ImportCSV listSink id (fun _ => Env.default) shortRecordInput emptyWorld "s" "t"
        false false "" "," =
      .returned (some (.copyFailed 3 (.row .fieldCount "2")),
        ⟨[[some "1", some "Alice"]], [([some "1", some "Alice"], none)], 0, [], []⟩) := by
  refine ⟨rfl, rfl, rfl⟩

/-- C15, amended: in every run of `ImportCSV` that opens an import session and whose
row loop returns, `ImportCSV` calls `Commit` exactly once when the loop finishes
without a fatal error; when the loop aborts it makes no further call on the session,
neither a commit nor a rollback, and returns the error with the session as the loop
left it. -/
theorem ImportCSV_session_end {σ : Type} (S : Sink σ) (tbl : Char → Char)
    (env : Nat → Env) (input : List Raw) (w : World σ) (schema tableName : String)
    (ignoreErrors skipHeader : Bool) (fields delimiter : String) (cols : List String)
    (r : Reader) (res : CopyResult σ)
    (hp : parseColumns tbl env ⟨input, 0⟩ skipHeader fields = ((cols, none), r))
    (hn : (S.NewCSVImport w.db schema tableName cols).2 = none)
    (hcopy : copyCSVRows S { w with db := (S.NewCSVImport w.db schema tableName cols).1 }
      { r with FieldsPerRecord := cols.length } ignoreErrors delimiter cols = .returned res) :
    (res.err = none →
      ∃ w2, ImportCSV S tbl env input w schema tableName ignoreErrors skipHeader fields
          delimiter = .returned ((S.Commit res.world.db).2, w2) ∧
        w2.commits = w.commits + 1 ∧ w2.db = (S.Commit res.world.db).1) ∧
    (∀ err, res.err = some err →
      ∃ e, ImportCSV S tbl env input w schema tableName ignoreErrors skipHeader fields
          delimiter = .returned (some e, res.world) ∧
        res.world.commits = w.commits) := by
  have hcom : res.world.commits = w.commits := by
    have h2 := copyLoop_commits S ignoreErrors delimiter cols _ _ _ _ _ res hcopy
    exact h2
  constructor
  · intro he
    refine ⟨{ res.world with
        db := (S.Commit res.world.db).1, commits := res.world.commits + 1,
        stdout := if ignoreErrors && decide (res.failed > 0) then
          res.world.stdout ++
            [toString res.success ++ " rows imported into " ++ schema ++ "." ++ tableName] ++
            [toString res.failed ++ " rows could not be imported into " ++ schema ++ "."
              ++ tableName ++ " and have been written to stderr."]
          else res.world.stdout ++
            [toString res.success ++ " rows imported into " ++ schema ++ "." ++ tableName] },
      ?_, ?_, rfl⟩
    · simp [ImportCSV, hp, hn, hcopy, he]
    · simp [hcom]
  · intro err he
    exact ⟨_, ImportCSV_reported_line S tbl env input w schema tableName ignoreErrors
      skipHeader fields delimiter cols r res err hp hn hcopy he, hcom⟩

/-- C15, amended, at two runs of the source with a short record: without
`ignoreErrors` the loop aborts and the session stays as the loop left it; with
`ignoreErrors` the loop finishes and `Commit` is called once. -/
theorem ImportCSV_session_end_witness :
    (∃ e, ImportCSV listSink id (fun _ => Env.default) shortRecordInput emptyWorld "s" "t"
        false false "" "," =
        .returned (some e,
          ⟨[[some "1", some "Alice"]], [([some "1", some "Alice"], none)], 0, [], []⟩) ∧
      (0 : Nat) = emptyWorld.commits) ∧
    (∃ w2, ImportCSV listSink id (fun _ => Env.default) shortRecordInput emptyWorld "s" "t"
        true false "" "," =
        .returned ((listSink.Commit [[some "1", some "Alice"], [some "2", some "Bob"]]).2,
          w2) ∧
      w2.commits = emptyWorld.commits + 1 ∧
      w2.db = (listSink.Commit [[some "1", some "Alice"], [some "2", some "Bob"]]).1) :=
  ⟨(ImportCSV_session_end listSink id (fun _ => Env.default) shortRecordInput emptyWorld
      "s" "t" false false "" "," ["id", "name"]
      ⟨[Raw.record ["1", "Alice"], Raw.record ["2"], Raw.record ["2", "Bob"]], 2⟩
      ⟨some (GoError.row GoError.fieldCount "2"), 1, 1, ⟨[Raw.record ["2", "Bob"]], 2⟩,
        ⟨[[some "1", some "Alice"]], [([some "1", some "Alice"], none)], 0, [], []⟩⟩
      (by decide) rfl rfl).2 (GoError.row GoError.fieldCount "2") rfl,
    (ImportCSV_session_end listSink id (fun _ => Env.default) shortRecordInput emptyWorld
      "s" "t" true false "" "," ["id", "name"]
      ⟨[Raw.record ["1", "Alice"], Raw.record ["2"], Raw.record ["2", "Bob"]], 2⟩
      ⟨none, 2, 1, ⟨[], 2⟩,
        ⟨[[some "1", some "Alice"], [some "2", some "Bob"]],
          [([some "1", some "Alice"], none), ([some "2", some "Bob"], none)], 0, ["2"], []⟩⟩
      (by decide) rfl rfl).1 rfl⟩

end Pgfutter
